import Mathlib

/-!
Shallow embedding of the catalog-version ingestion and embedding pipeline of
the `semantic_product_search` backend, centred on
`src/providers/application/providers-catalog.service.ts` (`processCatalog`,
`validateCatalogPreconditions`, `handleProcessFailure`), the retry/error
classification in `src/embeddings/embeddings.service.ts` (`getEmbeddings`)
and `src/vector-db/vector-db.service.ts` (`handlePineconeError`,
`upsertProviderVectors`, `deleteVectorsByVersion`), and the relational schema
(`CatalogProviderVersion` with a unique index on (providerId, versionNumber)).

The three backing stores are modelled as plain lists inside a `Store`
structure; the relational transactions of the service are single Lean
functions (atomic units), and the external collaborators (embedding provider,
vector index, document store) are modelled as outcome oracles passed to the
pipeline.  The audit collaborator never throws (its `log` swallows its own
errors, `audit.service.ts`), so audit calls are modelled as unconditional
appends.
-/

namespace SemanticCatalog

/-- Status enum of CatalogProviderVersion (`catalog-version-status` enum,
default 'PROCESSING' in the schema). -/
inductive VStatus
  | PROCESSING
  | ACTIVE
  | ARCHIVED
  | FAILED
deriving DecidableEq, Repr

/-- One row of the relational `CatalogProviderVersion` table.
`createdAt` is an abstract timestamp used by the `orderBy createdAt desc`
queries of the service. -/
structure VersionRow where
  id : Nat
  providerId : Nat
  versionNumber : Nat
  status : VStatus
  createdAt : Nat
deriving DecidableEq, Repr

/-- One `CatalogItem` document of the document store (provider-item.schema).
Only the fields the pipeline reads or writes are kept: the owning provider,
the owning catalog version, the natural key `sku`, and the `active` flag. -/
structure ItemDoc where
  providerId : Nat
  catalogVersionId : Nat
  sku : String
  active : Bool
deriving DecidableEq, Repr

/-- One vector record of the vector index: id `providerId#sku`, plus the
metadata fields the pipeline filters on (providerId, catalogVersionId). -/
structure VecRec where
  key : String
  providerId : Nat
  catalogVersionId : Nat
deriving DecidableEq, Repr

/-- Combined observable state of the three stores, plus the audit trail
(list of logged failure/success reasons). -/
structure Store where
  providers : List Nat
  versions : List VersionRow
  items : List ItemDoc
  vectors : List VecRec
  audits : List String
deriving DecidableEq, Repr

/-! ## Error classification

`getEmbeddings` (embeddings.service.ts) classifies an error from its
`status` (possibly from `response.status`) and `code` fields; -- the
classification then feeds `EmbeddingGenerationException.retryable`.
`handlePineconeError` (vector-db.service.ts) classifies from the numeric
`status` property (when present on an `Error`) and from substrings of the
error `message`; it feeds `VectorDbException.retryable`. -/

/-- `listStartsWith pat l` : the character list `l` starts with `pat`. -/
def listStartsWith : List Char → List Char → Bool
  | [], _ => true
  | _ :: _, [] => false
  | p :: ps, c :: cs => p = c && listStartsWith ps cs

/-- `listOccurs pat l` : `pat` occurs as a contiguous run of `l`. -/
def listOccurs (pat : List Char) : List Char → Bool
  | [] => listStartsWith pat []
  | c :: cs => listStartsWith pat (c :: cs) || listOccurs pat cs

/-- JS `message.includes(pat)`, as a structural scan over the characters. -/
def strIncludes (s pat : String) : Bool :=
  listOccurs pat.data s.data

/-- Retryable classification of `getEmbeddings`' catch block: first the
positive rules (429, 5xx, the three network codes), then the explicit
non-retryable overrides for 401/403 and 400/404. -/
def embClassifyRetryable (status : Option Nat) (code : Option String) : Bool :=
  let r0 :=
    if status = some 429 then true
    else if (match status with
             | some s => decide (500 ≤ s) && decide (s < 600)
             | none => false) then true
    else if code = some "ECONNRESET" || code = some "ETIMEDOUT"
            || code = some "ENOTFOUND" then true
    else false
  let r1 := if status = some 401 || status = some 403 then false else r0
  if status = some 400 || status = some 404 then false else r1

/-- Retryable classification of `handlePineconeError`: 429, any status
at least 500 (no upper bound in the source), or a message containing
"ECONNRESET", "ETIMEDOUT" or "fetch failed". -/
def pcClassifyRetryable (status : Option Nat) (message : String) : Bool :=
  if status = some 429 then true
  else if (match status with
           | some s => decide (500 ≤ s)
           | none => false) then true
  else if strIncludes message "ECONNRESET" || strIncludes message "ETIMEDOUT"
          || strIncludes message "fetch failed" then true
  else false

/-- Modelled from the spec: the classification the spec describes in section
4.4 and claims for both services — retryable exactly on HTTP 429, a status
in the 5xx range, or a transport-level error (connection reset, timeout,
DNS failure).  For the vector service the transport nature of an error is
carried by its message (the Node syscall code); a DNS failure carries
"ENOTFOUND". -/
def specPineconeRetryable (status : Option Nat) (message : String) : Bool :=
  decide (status = some 429)
  || (match status with
      | some s => decide (500 ≤ s) && decide (s < 600)
      | none => false)
  || strIncludes message "ECONNRESET" || strIncludes message "ETIMEDOUT"
  || strIncludes message "ENOTFOUND"

/-! ## Embedding retry loop

`processCatalog` step 4: for each item, a `while (attempt < MAX_RETRIES)`
loop around `getEmbeddings`.  All errors thrown by `getEmbeddings` are
`EmbeddingGenerationException`s (its catch wraps every failure), so an
attempt outcome is either success or a classified error with a message. -/

def MAX_RETRIES : Nat := 3
def BASE_DELAY_MS : Nat := 500

/-- Outcome of one `getEmbeddings` call, as seen by the retry loop:
either a vector came back, or an `EmbeddingGenerationException` with its
`retryable` classification and message was thrown. -/
inductive EmbedOutcome
  | ok
  | err (retryable : Bool) (msg : String)
deriving DecidableEq, Repr

/-- Result of the per-item retry loop: how many calls were made, which
backoff delays were awaited between them, and how the loop ended.  The
failure messages are the exact strings passed to `handleProcessFailure`. -/
inductive ItemRes
  | success (attempts : Nat) (delays : List Nat)
  | nonRetryable (reason : String) (attempts : Nat) (delays : List Nat)
  | exhausted (reason : String) (attempts : Nat) (delays : List Nat)
deriving DecidableEq, Repr

def ItemRes.attempts : ItemRes → Nat
  | .success a _ => a
  | .nonRetryable _ a _ => a
  | .exhausted _ a _ => a

def ItemRes.delays : ItemRes → List Nat
  | .success _ d => d
  | .nonRetryable _ _ d => d
  | .exhausted _ _ d => d

def ItemRes.isExhausted : ItemRes → Bool
  | .exhausted _ _ _ => true
  | _ => false

def ItemRes.isSuccess : ItemRes → Bool
  | .success _ _ => true
  | _ => false

/-- Reason string handed to the Failure Handler on a non-retryable
embedding error (processCatalog line 267). -/
def nonRetryableEmbedReason (msg : String) : String :=
  "Non-retryable OpenAI error: " ++ msg

/-- Reason string handed to the Failure Handler when the retries are
exhausted (processCatalog line 286); it names `MAX_RETRIES`. -/
def exhaustedEmbedReason (msg : String) : String :=
  "Failed to generate embeddings after " ++ toString MAX_RETRIES
    ++ " attempts. Error: " ++ msg

/-- The `while (attempt < MAX_RETRIES)` loop body.  `attempt` counts prior
failures (the variable of the source); `fuel = MAX_RETRIES - attempt` keeps
the recursion structural.  On failure the counter is incremented first;
a non-retryable error aborts at once, a retryable one waits
`BASE_DELAY_MS * 2 ^ (attempt - 1)` and continues while `attempt <
MAX_RETRIES`, otherwise the exhaustion reason is produced.  The loop can
never exit through its own condition (every branch breaks, returns, or
continues with `attempt < MAX_RETRIES`), so the fuel-zero case is
unreachable from `embedItem`. -/
def embedLoopGo (oracle : Nat → EmbedOutcome) :
    Nat → Nat → List Nat → ItemRes
  | attempt, 0, delays => .exhausted "unreachable loop exit" attempt delays
  | attempt, fuel + 1, delays =>
    match oracle attempt with
    | .ok => .success (attempt + 1) delays
    | .err retryable msg =>
      let a' := attempt + 1
      if retryable = false then
        .nonRetryable (nonRetryableEmbedReason msg) a' delays
      else if a' < MAX_RETRIES then
        embedLoopGo oracle a' fuel
          (delays ++ [BASE_DELAY_MS * 2 ^ (a' - 1)])
      else
        .exhausted (exhaustedEmbedReason msg) a' delays

/-- One item's embedding with retry, as `processCatalog` runs it. -/
def embedItem (oracle : Nat → EmbedOutcome) : ItemRes :=
  embedLoopGo oracle 0 MAX_RETRIES []

/-! ## Observable side effects

The pipeline run is recorded as a list of events: embedding calls, backoff
waits, per-batch vector upserts, Failure Handler invocations (with the
status the version row had at the moment of the call), version-scoped
vector deletions, and audit records. -/

inductive Event
  | embedCall (itemIdx attempt : Nat)
  | delayMs (ms : Nat)
  | upsertBatch (callIdx batchIdx : Nat)
  | handlerInvoked (versionId : Nat) (statusAtCall : Option VStatus) (reason : String)
  | deleteVectors (versionId : Nat)
  | audit (reason : String)
deriving DecidableEq, Repr

/-! ## Relational-store primitives -/

/-- Boolean test used by the `where { providerId, status: 'ACTIVE' }`
queries. -/
def activeForB (p : Nat) (v : VersionRow) : Bool :=
  decide (v.providerId = p ∧ v.status = VStatus.ACTIVE)

/-- All ACTIVE rows of one provider. -/
def activeRows (vs : List VersionRow) (p : Nat) : List VersionRow :=
  vs.filter (activeForB p)

/-- `orderBy { createdAt: 'desc' }` tie-break: keep the later-created row. -/
def laterOf (a b : VersionRow) : VersionRow :=
  if a.createdAt < b.createdAt then b else a

/-- `findFirst({ where: { providerId, status: ACTIVE }, orderBy:
{ createdAt: desc } })`: the most recently created ACTIVE row, if any. -/
def findFirstActive (vs : List VersionRow) (p : Nat) : Option VersionRow :=
  match activeRows vs p with
  | [] => none
  | x :: xs => some (xs.foldl laterOf x)

/-- `update({ where: { id }, data: { status } })` on the version table. -/
def updStatus (vid : Nat) (st : VStatus) (vs : List VersionRow) : List VersionRow :=
  vs.map (fun v => if v.id = vid then { v with status := st } else v)

/-- Status of the row with a given id (`find?` is unambiguous once row ids
are distinct, which the primary key guarantees). -/
def statusOf (vs : List VersionRow) (vid : Nat) : Option VStatus :=
  (vs.find? (fun v => decide (v.id = vid))).map (fun v => v.status)

/-- Version number for the new row (processCatalog lines 145–149): the
latest ACTIVE row's number plus one, defaulting to 1. -/
def nextVersionNumber (vs : List VersionRow) (p : Nat) : Nat :=
  match findFirstActive vs p with
  | some last => last.versionNumber + 1
  | none => 1

/-- The step-1 cutover transaction (processCatalog lines 337–360), one
atomic unit: find the latest ACTIVE row; if it exists and differs from the
new version, set it ARCHIVED and remember its id
(`lastActiveVersionId`); then set the new version ACTIVE.  Returns the
updated table and the remembered old id. -/
def activateTx (vs : List VersionRow) (p vid : Nat) : List VersionRow × Option Nat :=
  match findFirstActive vs p with
  | some o =>
    if o.id ≠ vid then
      (updStatus vid VStatus.ACTIVE (updStatus o.id VStatus.ARCHIVED vs), some o.id)
    else
      (updStatus vid VStatus.ACTIVE vs, none)
  | none => (updStatus vid VStatus.ACTIVE vs, none)

/-! ## Document-store and vector-index primitives -/

/-- `updateMany({ providerId, catalogVersionId }, { $set: { active } })`. -/
def setItemsActive (p vid : Nat) (b : Bool) (items : List ItemDoc) : List ItemDoc :=
  items.map (fun d =>
    if d.providerId = p ∧ d.catalogVersionId = vid then { d with active := b } else d)

/-- Vector id `providerId#sku`. -/
def mkVecKey (p : Nat) (sku : String) : String :=
  toString p ++ "#" ++ sku

/-- One Pinecone batch upsert: overwrite by vector id, then append the
batch's records tagged with the publishing version. -/
def applyBatchUpsert (s : Store) (p vid : Nat) (skus : List String) : Store :=
  { s with vectors :=
      s.vectors.filter (fun r => !(skus.any (fun k => decide (mkVecKey p k = r.key))))
        ++ skus.map (fun k => ⟨mkVecKey p k, p, vid⟩) }

/-- `deleteVectorsByVersion`: `deleteMany` with the metadata filter
`{ providerId, catalogVersionId }`. -/
def deleteVectorsByVersionStore (s : Store) (p vid : Nat) : Store :=
  { s with vectors :=
      s.vectors.filter (fun r => !decide (r.providerId = p ∧ r.catalogVersionId = vid)) }

/-! ## Failure Handler -/

/-- `handleProcessFailure(providerId, versionId, filePath, reason)`:
audit the reason, set the version FAILED, delete every document of that
version still carrying `active: false`.  The returned events record the
status the version row had at the moment of the call. -/
def handleProcessFailure (s : Store) (p vid : Nat) (reason : String) : Store × List Event :=
  ({ s with
      audits := s.audits ++ [reason],
      versions := updStatus vid VStatus.FAILED s.versions,
      items := s.items.filter (fun d =>
        !decide (d.providerId = p ∧ d.catalogVersionId = vid ∧ d.active = false)) },
   [Event.handlerInvoked vid (statusOf s.versions vid) reason, Event.audit reason])

/-! ## Vector Publisher: batching and retry

`upsertProviderVectors` (vector-db.service.ts) slices the vector list into
batches of `BATCH_SIZE = 100` (`for (i = 0; i < n; i += BATCH_SIZE)`) and
upserts them in order; the first batch whose upsert throws aborts the call
through `handlePineconeError`.  `processCatalog` step 5 wraps the whole
call in the same 3-attempt retry loop as the embeddings. -/

def BATCH_SIZE : Nat := 100

/-- Number of loop iterations of the batching for-loop for `n` vectors. -/
def numBatches (n : Nat) : Nat := (n + BATCH_SIZE - 1) / BATCH_SIZE

/-- The slice `newVectors.slice(i, i + BATCH_SIZE)` for batch index `b`
(`i = BATCH_SIZE * b`). -/
def batchSlice (skus : List String) (b : Nat) : List String :=
  (skus.drop (BATCH_SIZE * b)).take BATCH_SIZE

/-- A batch-upsert oracle: `none` means the Pinecone upsert of that batch
succeeded, `some (status, message)` that it threw an error with the given
extracted status and message (then classified by `handlePineconeError`). -/
abbrev BatchOracle := Nat → Option (Option Nat × String)

/-- One `upsertProviderVectors` call: upsert batches `b, b+1, ...` in
order, applying each successful batch to the store, until the first
failing batch, whose classified error is returned.  The issued batch
indices are returned in order (the failing upsert was issued too). -/
def upsertCallGo (s : Store) (p vid : Nat) (skus : List String) (fails : BatchOracle) :
    Nat → Nat → Store × List Nat × Option (Bool × String)
  | 0, _ => (s, [], none)
  | remaining + 1, b =>
    match fails b with
    | some (st, msg) => (s, [b], some (pcClassifyRetryable st msg, msg))
    | none =>
      let s' := applyBatchUpsert s p vid (batchSlice skus b)
      let (s'', issued, e) := upsertCallGo s' p vid skus fails remaining (b + 1)
      (s'', b :: issued, e)

def upsertCall (s : Store) (p vid : Nat) (skus : List String) (fails : BatchOracle) :
    Store × List Nat × Option (Bool × String) :=
  upsertCallGo s p vid skus fails (numBatches skus.length) 0

/-- Result of step 5: either the vectors are fully published, or the run
aborts with the reason handed to the Failure Handler. -/
inductive UpsRes
  | ok (s : Store) (events : List Event)
  | aborted (s : Store) (events : List Event) (reason : String)
deriving Repr

def UpsRes.store : UpsRes → Store
  | .ok s _ => s
  | .aborted s _ _ => s

def UpsRes.events : UpsRes → List Event
  | .ok _ e => e
  | .aborted _ e _ => e

def nonRetryableUpsertReason (msg : String) : String :=
  "Non-retryable Pinecone error: " ++ msg

def exhaustedUpsertReason (msg : String) : String :=
  "Failed to upsert vectors after " ++ toString MAX_RETRIES
    ++ " attempts. Error: " ++ msg

/-- The `while (upsertAttempt < MAX_RETRIES)` loop of step 5, mirroring the
embedding retry loop: each iteration re-runs `upsertProviderVectors` as a
whole (every retry restarts at batch 0). -/
def upsertRetryGo (p vid : Nat) (skus : List String) (oracle : Nat → BatchOracle) :
    Store → Nat → Nat → List Event → UpsRes
  | s, _, 0, evs => .aborted s evs "unreachable loop exit"
  | s, attempt, fuel + 1, evs =>
    let (s', issued, e) := upsertCall s p vid skus (oracle attempt)
    let evs' := evs ++ issued.map (fun b => Event.upsertBatch attempt b)
    match e with
    | none => .ok s' evs'
    | some (retryable, msg) =>
      let a' := attempt + 1
      if retryable = false then
        .aborted s' evs' (nonRetryableUpsertReason msg)
      else if a' < MAX_RETRIES then
        upsertRetryGo p vid skus oracle s' a' fuel
          (evs' ++ [Event.delayMs (BASE_DELAY_MS * 2 ^ (a' - 1))])
      else
        .aborted s' evs' (exhaustedUpsertReason msg)

def upsertStage (s : Store) (p vid : Nat) (skus : List String)
    (oracle : Nat → BatchOracle) : UpsRes :=
  upsertRetryGo p vid skus oracle s 0 MAX_RETRIES []

/-! ## Embedding stage over the item list -/

inductive StageRes
  | ok (events : List Event)
  | aborted (events : List Event) (reason : String)
deriving DecidableEq, Repr

def StageRes.events : StageRes → List Event
  | .ok e => e
  | .aborted e _ => e

/-- Events of one item's retry loop: the calls made, then the backoff
waits awaited between them. -/
def itemEvents (i : Nat) (r : ItemRes) : List Event :=
  (List.range r.attempts).map (fun a => Event.embedCall i a)
    ++ r.delays.map Event.delayMs

/-- Step 4 of `processCatalog` over the (indices of the) item list: items
are embedded strictly in order, and the first item whose retry loop ends in
failure aborts the stage with the reason for the Failure Handler. -/
def embedStageGo (oracle : Nat → Nat → EmbedOutcome) :
    List Nat → List Event → StageRes
  | [], evs => .ok evs
  | i :: rest, evs =>
    let r := embedItem (oracle i)
    let evs' := evs ++ itemEvents i r
    match r with
    | .success _ _ => embedStageGo oracle rest evs'
    | .nonRetryable reason _ _ => .aborted evs' reason
    | .exhausted reason _ _ => .aborted evs' reason

def embedStage (oracle : Nat → Nat → EmbedOutcome) (n : Nat) : StageRes :=
  embedStageGo oracle (List.range n) []

/-! ## Version opening (processCatalog step 2)

One atomic transaction: read the latest ACTIVE version to compute the next
number, insert the new PROCESSING row.  The store enforces the unique index
on (providerId, versionNumber) — Prisma error P2002 — and the foreign key
to Provider — P2003.  The catch block maps these codes to the reasons
"Duplicate version number" / "Foreign key constraint failed", audits them,
and returns from `processCatalog` without invoking `handleProcessFailure`
(there is no version row to mark). -/

def dupVersionReason : String := "Duplicate version number"
def fkFailedReason : String := "Foreign key constraint failed"

/-- `openVersion`: returns the updated store, the created version id when
the transaction committed, and the events of the step. -/
def openVersion (s : Store) (p newId now : Nat) : Store × Option Nat × List Event :=
  let num := nextVersionNumber s.versions p
  if s.versions.any (fun v => decide (v.providerId = p ∧ v.versionNumber = num)) then
    ({ s with audits := s.audits ++ [dupVersionReason] }, none, [Event.audit dupVersionReason])
  else if decide (p ∈ s.providers) = false then
    ({ s with audits := s.audits ++ [fkFailedReason] }, none, [Event.audit fkFailedReason])
  else
    ({ s with versions := s.versions ++ [⟨newId, p, num, VStatus.PROCESSING, now⟩] },
     some newId, [])

/-! ## Item staging (processCatalog step 3)

`insertMany` with `ordered: false`: one document per row, `active: false`,
tagged with the new version.  When the bulk write itself throws, the
documents inserted before the failure stay behind (the unordered insert
does not roll back) and the Failure Handler runs with the
"Error saving items to MongoDB" reason. -/

def stagedDocs (p vid : Nat) (skus : List String) : List ItemDoc :=
  skus.map (fun sku => ⟨p, vid, sku, false⟩)

def stageItems (s : Store) (p vid : Nat) (skus : List String) : Store :=
  { s with items := s.items ++ stagedDocs p vid skus }

def insertFailReason (msg : String) : String :=
  "Error saving items to MongoDB: " ++ msg

/-! ## Cutover finalization (processCatalog step 6)

The try block covers: the step-1 transaction, the step-2 item flip, the
step-3 old-item flip, the best-effort step-4 vector cleanup (whose own
errors are swallowed by an inner catch) and the success audit (the audit
service swallows its own errors, so it never throws).  The catch runs
`handleProcessFailure` with the "Failed to finalize" reason and then the
best-effort compensating deletion of the new version's vectors. -/

structure FinalizeEnv where
  /-- the step-1 transaction throws (with this error message) before committing -/
  txThrow : Option String
  /-- the step-2 `updateMany` (flip new items active) throws -/
  flipNewThrow : Option String
  /-- the step-3 `updateMany` (deactivate old items) throws -/
  flipOldThrow : Option String
  /-- the step-4 old-vector cleanup throws (swallowed, logged) -/
  cleanupThrow : Bool
  /-- the compensating new-vector deletion throws (swallowed, logged CRITICAL) -/
  rollbackThrow : Bool
deriving Repr

def failedFinalizeReason (msg : String) : String :=
  "Failed to finalize catalog version activation. Error: " ++ msg

def successAudit : String := "CATALOG_PROCESSING_SUCCEEDED"

/-- The catch block of step 6: Failure Handler, then the compensating
deletion of the new version's already-published vectors (best-effort). -/
def finalizeCatch (env : FinalizeEnv) (s : Store) (p vid : Nat) (msg : String) :
    Store × List Event :=
  let (s1, evs1) := handleProcessFailure s p vid (failedFinalizeReason msg)
  if env.rollbackThrow then (s1, evs1)
  else (deleteVectorsByVersionStore s1 p vid, evs1 ++ [Event.deleteVectors vid])

def finalize (env : FinalizeEnv) (s : Store) (p vid : Nat) : Store × List Event :=
  match env.txThrow with
  | some msg => finalizeCatch env s p vid msg
  | none =>
    let (vs', lastActiveId) := activateTx s.versions p vid
    let sTx := { s with versions := vs' }
    match env.flipNewThrow with
    | some msg => finalizeCatch env sTx p vid msg
    | none =>
      let sNew := { sTx with items := setItemsActive p vid true sTx.items }
      match lastActiveId with
      | some oldId =>
        match env.flipOldThrow with
        | some msg => finalizeCatch env sNew p vid msg
        | none =>
          let sOld := { sNew with items := setItemsActive p oldId false sNew.items }
          let sClean :=
            if env.cleanupThrow then sOld
            else deleteVectorsByVersionStore sOld p oldId
          let cleanEvs := if env.cleanupThrow then [] else [Event.deleteVectors oldId]
          ({ sClean with audits := sClean.audits ++ [successAudit] },
           cleanEvs ++ [Event.audit successAudit])
      | none =>
        ({ sNew with audits := sNew.audits ++ [successAudit] },
         [Event.audit successAudit])

/-! ## The composed pipeline

`processCatalog` after a successful precondition validation (the validator
performs no store writes besides audit records and creates no version, so
runs rejected by it leave versions, items and vectors untouched). -/

structure RunEnv where
  embed : Nat → Nat → EmbedOutcome
  upsert : Nat → BatchOracle
  /-- `insertMany` throws after inserting the first `k` documents -/
  insertThrow : Option (Nat × String)
  fin : FinalizeEnv

structure RunInput where
  providerId : Nat
  newId : Nat
  now : Nat
  skus : List String

/-- Steps 4–6 of `processCatalog`, from the state in which the version row
exists and the items are staged. -/
def runFromStaged (env : RunEnv) (inp : RunInput) (s2 : Store) (vid : Nat) :
    Store × List Event :=
  match embedStage env.embed inp.skus.length with
  | .aborted evs reason =>
    let (s3, hevs) := handleProcessFailure s2 inp.providerId vid reason
    (s3, evs ++ hevs)
  | .ok evs =>
    match upsertStage s2 inp.providerId vid inp.skus env.upsert with
    | .aborted s3 uevs reason =>
      let (s4, hevs) := handleProcessFailure s3 inp.providerId vid reason
      (s4, evs ++ uevs ++ hevs)
    | .ok s3 uevs =>
      let (s4, fevs) := finalize env.fin s3 inp.providerId vid
      (s4, evs ++ uevs ++ fevs)

/-- Steps 3–6 of `processCatalog`, from the state in which the PROCESSING
version row has been committed. -/
def runFromOpened (env : RunEnv) (inp : RunInput) (s1 : Store) (vid : Nat) :
    Store × List Event :=
  match env.insertThrow with
  | some (k, msg) =>
    let s2 := stageItems s1 inp.providerId vid (inp.skus.take k)
    handleProcessFailure s2 inp.providerId vid (insertFailReason msg)
  | none =>
    runFromStaged env inp (stageItems s1 inp.providerId vid inp.skus) vid

def processCatalogModel (env : RunEnv) (inp : RunInput) (s : Store) : Store × List Event :=
  match openVersion s inp.providerId inp.newId inp.now with
  | (s1, none, evs0) => (s1, evs0)
  | (s1, some vid, evs0) =>
    let (sf, evs) := runFromOpened env inp s1 vid
    (sf, evs0 ++ evs)

/-! ## Concurrent interleavings of the relational writes

Multiple uploads run as independent background tasks; the only writes to
the `CatalogProviderVersion` table anywhere in the repository are the three
atomic units of this service: the version-opening transaction, the step-1
cutover transaction, and the Failure Handler's FAILED update.  A reachable
table state is therefore any interleaving of those three atomic units, from
the empty table.  The hypotheses of the steps record what the store and the
call sites guarantee: the primary key makes the new id fresh, the unique
index rejects a duplicate (providerId, versionNumber) pair (a rejected
insert changes nothing and so needs no step), and the cutover/failure steps
are only ever called with the id of a row the same run created for its own
provider. -/

def GoodIds (vs : List VersionRow) : Prop :=
  (vs.map (fun v => v.id)).Nodup

def AtMostOneActive (vs : List VersionRow) : Prop :=
  ∀ p, (activeRows vs p).length ≤ 1

inductive Step : List VersionRow → List VersionRow → Prop
  | openv (vs : List VersionRow) (p id now : Nat)
      (hfresh : id ∉ vs.map (fun v => v.id))
      (hnodup : ∀ v ∈ vs, ¬(v.providerId = p ∧ v.versionNumber = nextVersionNumber vs p)) :
      Step vs (vs ++ [⟨id, p, nextVersionNumber vs p, VStatus.PROCESSING, now⟩])
  | cutover (vs : List VersionRow) (p : Nat) (v : VersionRow)
      (hmem : v ∈ vs) (hprov : v.providerId = p) :
      Step vs (activateTx vs p v.id).1
  | markFailed (vs : List VersionRow) (v : VersionRow)
      (hmem : v ∈ vs) :
      Step vs (updStatus v.id VStatus.FAILED vs)

inductive Reachable : List VersionRow → Prop
  | init : Reachable []
  | step {vs vs' : List VersionRow} : Reachable vs → Step vs vs' → Reachable vs'

/-! ## List-level helper lemmas -/

theorem length_filter_map_le {α : Type} (f : α → α) (P Q : α → Bool)
    (l : List α) (h : ∀ a ∈ l, P (f a) = true → Q a = true) :
    ((l.map f).filter P).length ≤ (l.filter Q).length := by
  induction l with
  | nil => simp
  | cons a l ih =>
    have ih' := ih (fun x hx hpx => h x (List.mem_cons_of_mem a hx) hpx)
    simp only [List.map_cons, List.filter_cons]
    by_cases hP : P (f a) = true
    · have hQ : Q a = true := h a (List.mem_cons_self a l) hP
      rw [if_pos hP, if_pos hQ]
      simpa using ih'
    · rw [if_neg hP]
      refine le_trans ih' ?_
      by_cases hQ : Q a = true
      · rw [if_pos hQ]; exact Nat.le_succ _
      · rw [if_neg hQ]

theorem length_filter_or_le {α : Type} (P Q : α → Bool) (l : List α) :
    (l.filter (fun a => P a || Q a)).length ≤
      (l.filter P).length + (l.filter Q).length := by
  induction l with
  | nil => simp
  | cons a l ih =>
    simp only [List.filter_cons]
    by_cases hP : P a = true <;> by_cases hQ : Q a = true <;>
      simp [hP, hQ, List.length_cons] <;> omega

theorem eq_singleton_of_length_le_one {α : Type} {l : List α} {o : α}
    (h1 : l.length ≤ 1) (ho : o ∈ l) : l = [o] := by
  cases l with
  | nil => cases ho
  | cons a t =>
    cases t with
    | nil =>
      have : o = a := by simpa using ho
      simp [this]
    | cons b t' => simp at h1

/-! ## Version-table lemmas -/

theorem goodIds_inj {vs : List VersionRow} (h : GoodIds vs) {v w : VersionRow}
    (hv : v ∈ vs) (hw : w ∈ vs) (hid : v.id = w.id) : v = w :=
  List.inj_on_of_nodup_map h hv hw hid

theorem map_id_updStatus (u : Nat) (st : VStatus) (vs : List VersionRow) :
    (updStatus u st vs).map (fun v => v.id) = vs.map (fun v => v.id) := by
  induction vs with
  | nil => rfl
  | cons v vs ih =>
    simp only [updStatus, List.map_cons] at *
    by_cases h : v.id = u
    · rw [if_pos h]; simpa using ih
    · rw [if_neg h]; simpa using ih

theorem goodIds_updStatus (u : Nat) (st : VStatus) {vs : List VersionRow}
    (h : GoodIds vs) : GoodIds (updStatus u st vs) := by
  unfold GoodIds at *
  rwa [map_id_updStatus]

theorem goodIds_cons {a : VersionRow} {t : List VersionRow} (h : GoodIds (a :: t)) :
    a.id ∉ t.map (fun v => v.id) ∧ GoodIds t := by
  have h' : ((a.id :: t.map (fun v => v.id))).Nodup := by
    have := h
    rwa [GoodIds, List.map_cons] at this
  exact List.nodup_cons.mp h'

theorem statusOf_cons (a : VersionRow) (t : List VersionRow) (w : Nat) :
    statusOf (a :: t) w = if a.id = w then some a.status else statusOf t w := by
  unfold statusOf
  by_cases h : a.id = w
  · rw [List.find?_cons_of_pos _ (by simpa using h), if_pos h]
    rfl
  · rw [List.find?_cons_of_neg _ (by simpa using h), if_neg h]

theorem updStatus_cons (u : Nat) (st : VStatus) (v : VersionRow) (vs : List VersionRow) :
    updStatus u st (v :: vs) =
      (if v.id = u then { v with status := st } else v) :: updStatus u st vs := rfl

theorem statusOf_updStatus_self (u : Nat) (st : VStatus) (vs : List VersionRow) :
    statusOf (updStatus u st vs) u = (statusOf vs u).map (fun _ => st) := by
  induction vs with
  | nil => rfl
  | cons v vs ih =>
    rw [updStatus_cons]
    by_cases hvu : v.id = u
    · rw [if_pos hvu, statusOf_cons, statusOf_cons]
      rw [if_pos (show ({ v with status := st } : VersionRow).id = u from hvu)]
      rw [if_pos hvu]
      rfl
    · rw [if_neg hvu, statusOf_cons, statusOf_cons, if_neg hvu, if_neg hvu, ih]

theorem statusOf_updStatus_ne (u : Nat) (st : VStatus) (vs : List VersionRow)
    (w : Nat) (hne : u ≠ w) :
    statusOf (updStatus u st vs) w = statusOf vs w := by
  induction vs with
  | nil => rfl
  | cons v vs ih =>
    rw [updStatus_cons]
    by_cases hvu : v.id = u
    · have hvw : ¬(v.id = w) := fun h => hne (hvu ▸ h)
      rw [if_pos hvu, statusOf_cons, statusOf_cons]
      rw [if_neg (show ¬(({ v with status := st } : VersionRow).id = w) from hvw)]
      rw [if_neg hvw, ih]
    · rw [if_neg hvu, statusOf_cons, statusOf_cons, ih]

theorem statusOf_mem {vs : List VersionRow} (h : GoodIds vs) {v : VersionRow}
    (hv : v ∈ vs) : statusOf vs v.id = some v.status := by
  induction vs with
  | nil => cases hv
  | cons a t ih =>
    rw [statusOf_cons]
    by_cases ha : a.id = v.id
    · have : a = v := goodIds_inj h (List.mem_cons_self a t) hv ha
      rw [if_pos ha, this]
    · rw [if_neg ha]
      have hvt : v ∈ t := by
        rcases List.mem_cons.mp hv with hv' | hv'
        · exact absurd (hv' ▸ rfl) ha
        · exact hv'
      exact ih (goodIds_cons h).2 hvt

theorem foldl_laterOf_mem (x : VersionRow) (xs : List VersionRow) :
    xs.foldl laterOf x ∈ x :: xs := by
  induction xs generalizing x with
  | nil => simp
  | cons y ys ih =>
    have h := ih (laterOf x y)
    rw [List.foldl_cons]
    have hxy : laterOf x y = x ∨ laterOf x y = y := by
      unfold laterOf; split
      · right; rfl
      · left; rfl
    rcases List.mem_cons.mp h with h | h
    · rw [h]
      rcases hxy with hh | hh <;> rw [hh]
      · exact List.mem_cons_self x _
      · exact List.mem_cons_of_mem _ (List.mem_cons_self y ys)
    · exact List.mem_cons_of_mem _ (List.mem_cons_of_mem _ h)

theorem findFirstActive_mem {vs : List VersionRow} {p : Nat} {o : VersionRow}
    (h : findFirstActive vs p = some o) :
    o ∈ vs ∧ o.providerId = p ∧ o.status = VStatus.ACTIVE := by
  unfold findFirstActive at h
  cases hf : activeRows vs p with
  | nil => rw [hf] at h; cases h
  | cons x xs =>
    rw [hf] at h
    have ho : o = xs.foldl laterOf x := by
      injection h with h; exact h.symm
    have hm : o ∈ x :: xs := ho ▸ foldl_laterOf_mem x xs
    rw [← hf] at hm
    have hm' := List.mem_filter.mp hm
    refine ⟨hm'.1, ?_⟩
    have := of_decide_eq_true hm'.2
    exact this

theorem findFirstActive_none {vs : List VersionRow} {p : Nat}
    (h : findFirstActive vs p = none) : activeRows vs p = [] := by
  unfold findFirstActive at h
  cases hf : activeRows vs p with
  | nil => rfl
  | cons x xs => rw [hf] at h; cases h

theorem mem_activeRows {vs : List VersionRow} {p : Nat} {v : VersionRow} :
    v ∈ activeRows vs p ↔ v ∈ vs ∧ v.providerId = p ∧ v.status = VStatus.ACTIVE := by
  unfold activeRows
  rw [List.mem_filter]
  constructor
  · intro ⟨h1, h2⟩; exact ⟨h1, of_decide_eq_true h2⟩
  · intro ⟨h1, h2⟩; exact ⟨h1, decide_eq_true h2⟩

theorem length_filter_key_le_one {vs : List VersionRow} (h : GoodIds vs) (vid : Nat) :
    (vs.filter (fun v => decide (v.id = vid))).length ≤ 1 := by
  induction vs with
  | nil => simp
  | cons a t ih =>
    have hnd := goodIds_cons h
    simp only [List.filter_cons]
    by_cases ha : a.id = vid
    · rw [if_pos (by simpa using ha)]
      have hnil : t.filter (fun v => decide (v.id = vid)) = [] := by
        apply List.filter_eq_nil_iff.mpr
        intro w hw
        simp only [decide_eq_true_eq]
        intro hwid
        have hmem : w.id ∈ t.map (fun v => v.id) := List.mem_map_of_mem _ hw
        rw [hwid, ← ha] at hmem
        exact hnd.1 hmem
      simp [hnil]
    · rw [if_neg (by simpa using ha)]
      exact ih hnd.2

/-! ## Preservation of the single-ACTIVE invariant -/

theorem activeRows_updStatus_nonactive_le (u : Nat) (st : VStatus)
    (hst : st ≠ VStatus.ACTIVE) (vs : List VersionRow) (p : Nat) :
    (activeRows (updStatus u st vs) p).length ≤ (activeRows vs p).length := by
  unfold activeRows updStatus
  apply length_filter_map_le
  intro v _ hPv
  by_cases h : v.id = u
  · rw [if_pos h] at hPv
    exact absurd (of_decide_eq_true hPv).2 hst
  · rwa [if_neg h] at hPv

theorem activeRows_updStatus_active_other {vs : List VersionRow} {u : Nat}
    (hg : GoodIds vs) {r : VersionRow} (hr : r ∈ vs) (hru : r.id = u)
    {q : Nat} (hq : r.providerId ≠ q) :
    (activeRows (updStatus u VStatus.ACTIVE vs) q).length ≤
      (activeRows vs q).length := by
  unfold activeRows updStatus
  apply length_filter_map_le
  intro v hv hPv
  by_cases h : v.id = u
  · have hvr : v = r := goodIds_inj hg hv hr (h.trans hru.symm)
    rw [if_pos h] at hPv
    have := (of_decide_eq_true hPv).1
    exact absurd (hvr ▸ this) hq
  · rwa [if_neg h] at hPv

/-- Setting any existing row ACTIVE leaves at most one ACTIVE row for its
own provider, provided that provider currently has at most one (the
updated row itself or none). -/
theorem activeRows_updStatus_active_self {vs : List VersionRow} {u p : Nat}
    (hg : GoodIds vs) (hzero : activeRows vs p = []) :
    (activeRows (updStatus u VStatus.ACTIVE vs) p).length ≤ 1 := by
  have hbound :
      (activeRows (updStatus u VStatus.ACTIVE vs) p).length ≤
        (vs.filter (fun v => activeForB p v || decide (v.id = u))).length := by
    unfold activeRows updStatus
    apply length_filter_map_le
    intro v hv hPv
    by_cases h : v.id = u
    · simp [h]
    · rw [if_neg h] at hPv
      simp [hPv]
  refine le_trans hbound (le_trans (length_filter_or_le _ _ vs) ?_)
  have h0 : (vs.filter (activeForB p)).length = 0 := by
    have : vs.filter (activeForB p) = [] := hzero
    simp [this]
  have h1 := length_filter_key_le_one hg u
  omega

theorem activateTx_no_old {vs : List VersionRow} {p vid : Nat}
    (hf : findFirstActive vs p = none) :
    activateTx vs p vid = (updStatus vid VStatus.ACTIVE vs, none) := by
  unfold activateTx; rw [hf]

theorem activateTx_same_old {vs : List VersionRow} {p vid : Nat} {o : VersionRow}
    (hf : findFirstActive vs p = some o) (h : o.id = vid) :
    activateTx vs p vid = (updStatus vid VStatus.ACTIVE vs, none) := by
  unfold activateTx; rw [hf]; simp [h]

theorem activateTx_archives {vs : List VersionRow} {p vid : Nat} {o : VersionRow}
    (hf : findFirstActive vs p = some o) (h : o.id ≠ vid) :
    activateTx vs p vid =
      (updStatus vid VStatus.ACTIVE (updStatus o.id VStatus.ARCHIVED vs), some o.id) := by
  unfold activateTx; rw [hf]; simp [h]

theorem step_preserves {vs vs' : List VersionRow} (h : Step vs vs')
    (hg : GoodIds vs) (ha : AtMostOneActive vs) :
    GoodIds vs' ∧ AtMostOneActive vs' := by
  cases h with
  | openv p id now hfresh hnum =>
    constructor
    · unfold GoodIds at *
      rw [List.map_append]
      rw [List.nodup_append]
      refine ⟨hg, List.nodup_singleton _, ?_⟩
      intro a haa hbb
      have hab : a = id := by simpa using hbb
      exact hfresh (hab ▸ haa)
    · intro q
      unfold activeRows
      rw [List.filter_append]
      have hnil : List.filter (activeForB q)
          [⟨id, p, nextVersionNumber vs p, VStatus.PROCESSING, now⟩] = [] := by
        simp [activeForB]
      rw [hnil, List.append_nil]
      exact ha q
  | markFailed v hmem =>
    refine ⟨goodIds_updStatus _ _ hg, fun q => ?_⟩
    exact le_trans
      (activeRows_updStatus_nonactive_le v.id VStatus.FAILED (by simp) vs q) (ha q)
  | cutover p v hmem hprov =>
    cases hf : findFirstActive vs p with
    | none =>
      rw [activateTx_no_old hf]
      refine ⟨goodIds_updStatus _ _ hg, fun q => ?_⟩
      by_cases hq : q = p
      · rw [hq]
        exact activeRows_updStatus_active_self hg (findFirstActive_none hf)
      · refine le_trans
          (activeRows_updStatus_active_other hg hmem rfl ?_) (ha q)
        rw [hprov]; exact Ne.symm hq
    | some o =>
      have ho := findFirstActive_mem hf
      by_cases hov : o.id = v.id
      · rw [activateTx_same_old hf hov]
        refine ⟨goodIds_updStatus _ _ hg, fun q => ?_⟩
        by_cases hq : q = p
        · rw [hq]
          refine le_trans ?_ (ha p)
          unfold activeRows updStatus
          apply length_filter_map_le
          intro w hw hPw
          by_cases hwid : w.id = v.id
          · have hwo : w = o := goodIds_inj hg hw ho.1 (hwid.trans hov.symm)
            rw [hwo]
            exact decide_eq_true ⟨ho.2.1, ho.2.2⟩
          · rwa [if_neg hwid] at hPw
        · refine le_trans
            (activeRows_updStatus_active_other hg hmem rfl ?_) (ha q)
          rw [hprov]; exact Ne.symm hq
      · rw [activateTx_archives hf hov]
        have hg1 : GoodIds (updStatus o.id VStatus.ARCHIVED vs) :=
          goodIds_updStatus _ _ hg
        have hvmem1 : v ∈ updStatus o.id VStatus.ARCHIVED vs := by
          have hne : ¬(v.id = o.id) := fun hh => hov hh.symm
          unfold updStatus
          rw [List.mem_map]
          exact ⟨v, hmem, by rw [if_neg hne]⟩
        refine ⟨goodIds_updStatus _ _ hg1, fun q => ?_⟩
        by_cases hq : q = p
        · rw [hq]
          have hzero : activeRows (updStatus o.id VStatus.ARCHIVED vs) p = [] := by
            have hsing : activeRows vs p = [o] :=
              eq_singleton_of_length_le_one (ha p)
                (mem_activeRows.mpr ⟨ho.1, ho.2.1, ho.2.2⟩)
            have hlen : (activeRows (updStatus o.id VStatus.ARCHIVED vs) p).length ≤
                (vs.filter (fun _ => false)).length := by
              unfold activeRows updStatus
              apply length_filter_map_le
              intro w hw hPw
              exfalso
              by_cases hwid : w.id = o.id
              · rw [if_pos hwid] at hPw
                exact absurd (of_decide_eq_true hPw).2 (by simp)
              · rw [if_neg hwid] at hPw
                have hw' : w ∈ activeRows vs p :=
                  mem_activeRows.mpr
                    ⟨hw, (of_decide_eq_true hPw).1, (of_decide_eq_true hPw).2⟩
                rw [hsing] at hw'
                have : w = o := by simpa using hw'
                exact hwid (this ▸ rfl)
            have : (activeRows (updStatus o.id VStatus.ARCHIVED vs) p).length = 0 := by
              simpa using hlen
            exact List.length_eq_zero.mp this
          exact activeRows_updStatus_active_self hg1 hzero
        · refine le_trans (activeRows_updStatus_active_other hg1 hvmem1 rfl ?_) ?_
          · rw [hprov]; exact Ne.symm hq
          · exact le_trans
              (activeRows_updStatus_nonactive_le o.id VStatus.ARCHIVED (by simp) vs q)
              (ha q)

theorem reachable_inv {vs : List VersionRow} (h : Reachable vs) :
    GoodIds vs ∧ AtMostOneActive vs := by
  induction h with
  | init =>
    constructor
    · simp [GoodIds]
    · intro p; simp [activeRows]
  | step _ hs ih => exact step_preserves hs ih.1 ih.2

/-! ## Claim C1 -/

/-- C1: for every provider and every version-table state reachable by any
interleaving of the pipeline's atomic relational writes (concurrent runs and
failure paths included), at most one CatalogVersion row of that provider has
status ACTIVE; and the step-1 cutover transaction archives the previous
ACTIVE row, when it differs from the new version, in the same atomic unit
(`activateTx`, one `Step`) that sets the new version ACTIVE. -/
theorem c1_single_active_and_atomic_archive :
    (∀ vs, Reachable vs → ∀ p, (activeRows vs p).length ≤ 1) ∧
    (∀ (vs : List VersionRow) (p : Nat) (v o : VersionRow),
      GoodIds vs → v ∈ vs → v.providerId = p →
      findFirstActive vs p = some o → o.id ≠ v.id →
      statusOf (activateTx vs p v.id).1 o.id = some VStatus.ARCHIVED ∧
      statusOf (activateTx vs p v.id).1 v.id = some VStatus.ACTIVE) := by
  constructor
  · intro vs h p
    exact (reachable_inv h).2 p
  · intro vs p v o hg hmem _ hf hne
    have ho := findFirstActive_mem hf
    rw [activateTx_archives hf hne]
    constructor
    · rw [statusOf_updStatus_ne v.id VStatus.ACTIVE _ o.id (Ne.symm hne)]
      rw [statusOf_updStatus_self, statusOf_mem hg ho.1]
      rfl
    · rw [statusOf_updStatus_self,
        statusOf_updStatus_ne o.id VStatus.ARCHIVED vs v.id hne,
        statusOf_mem hg hmem]
      rfl

/-- C1 witness: the invariant evaluated on the concrete state reached by one
version-opening step, and the archive-and-activate conjunct evaluated on a
concrete two-row table. -/
theorem c1_single_active_and_atomic_archive_witness :
    (activeRows [(⟨1, 7, 1, VStatus.PROCESSING, 0⟩ : VersionRow)] 7).length ≤ 1 ∧
    (statusOf (activateTx
        [(⟨1, 7, 1, VStatus.ACTIVE, 0⟩ : VersionRow),
         ⟨2, 7, 2, VStatus.PROCESSING, 1⟩] 7 2).1 1
        = some VStatus.ARCHIVED ∧
     statusOf (activateTx
        [(⟨1, 7, 1, VStatus.ACTIVE, 0⟩ : VersionRow),
         ⟨2, 7, 2, VStatus.PROCESSING, 1⟩] 7 2).1 2
        = some VStatus.ACTIVE) := by
  constructor
  · exact c1_single_active_and_atomic_archive.1 _
      (Reachable.step Reachable.init (Step.openv [] 7 1 0 (by simp) (by simp))) 7
  · exact c1_single_active_and_atomic_archive.2
      [⟨1, 7, 1, VStatus.ACTIVE, 0⟩, ⟨2, 7, 2, VStatus.PROCESSING, 1⟩] 7
      ⟨2, 7, 2, VStatus.PROCESSING, 1⟩ ⟨1, 7, 1, VStatus.ACTIVE, 0⟩
      (by unfold GoodIds; decide) (by decide) rfl rfl (by decide)

/-! ## Claim C5: the per-item retry policy -/

/-- Full characterization of the retry loop, by induction on the remaining
fuel: the loop makes at least one more call, never exceeds `MAX_RETRIES`
calls in total, accumulates exactly the backoff delays
`BASE_DELAY_MS * 2 ^ j` for `j` ranging over the failures so far, and ends
in exhaustion only after exactly `MAX_RETRIES` calls, with the
attempt-count-naming reason. -/
theorem embedLoopGo_spec (oracle : Nat → EmbedOutcome) :
    ∀ fuel attempt r, fuel + attempt = MAX_RETRIES → 1 ≤ fuel →
      embedLoopGo oracle attempt fuel
        ((List.range attempt).map (fun j => BASE_DELAY_MS * 2 ^ j)) = r →
      (attempt < r.attempts ∧ r.attempts ≤ MAX_RETRIES) ∧
      r.delays = (List.range (r.attempts - 1)).map (fun j => BASE_DELAY_MS * 2 ^ j) ∧
      (∀ m a d, r = .exhausted m a d →
        a = MAX_RETRIES ∧ ∃ emsg, m = exhaustedEmbedReason emsg) := by
  intro fuel
  induction fuel with
  | zero => intro attempt r hsum hpos; omega
  | succ fuel ih =>
    intro attempt r hsum _ hr
    simp only [embedLoopGo] at hr
    cases hoc : oracle attempt with
    | ok =>
      rw [hoc] at hr
      subst hr
      refine ⟨⟨Nat.lt_succ_self _, by simp [ItemRes.attempts]; omega⟩, ?_, ?_⟩
      · simp [ItemRes.attempts, ItemRes.delays]
      · intro m a d h; cases h
    | err retryable msg =>
      rw [hoc] at hr
      dsimp only at hr
      by_cases hretry : retryable = false
      · rw [if_pos hretry] at hr
        subst hr
        refine ⟨⟨Nat.lt_succ_self _, by simp [ItemRes.attempts]; omega⟩, ?_, ?_⟩
        · simp [ItemRes.attempts, ItemRes.delays]
        · intro m a d h; cases h
      · rw [if_neg hretry] at hr
        by_cases hlt : attempt + 1 < MAX_RETRIES
        · rw [if_pos hlt] at hr
          have hdel :
              (List.range attempt).map (fun j => BASE_DELAY_MS * 2 ^ j)
                ++ [BASE_DELAY_MS * 2 ^ (attempt + 1 - 1)] =
              (List.range (attempt + 1)).map (fun j => BASE_DELAY_MS * 2 ^ j) := by
            rw [List.range_succ, List.map_append]
            simp
          rw [hdel] at hr
          have := ih (attempt + 1) r (by omega) (by omega) hr
          exact ⟨⟨by omega, this.1.2⟩, this.2.1, this.2.2⟩
        · rw [if_neg hlt] at hr
          subst hr
          have ha : attempt + 1 = MAX_RETRIES := by omega
          refine ⟨⟨Nat.lt_succ_self _, by simp [ItemRes.attempts]; omega⟩, ?_, ?_⟩
          · simp [ItemRes.attempts, ItemRes.delays]
          · intro m a d h
            injection h with h1 h2 h3
            exact ⟨by omega, msg, h1.symm⟩

/-- C5: for every single item's embedding call sequence, at most
`MAX_RETRIES = 3` calls are made in total; the backoff waited after the
n-th failed attempt (n counted from 1) is `BASE_DELAY_MS * 2 ^ (n − 1)` —
500 ms before attempt 2, 1000 ms before attempt 3; and an exhausted result
always carries exactly 3 attempts and the reason string naming that count,
which is handed to the Failure Handler (the run aborts). -/
theorem c5_embed_three_attempts_backoff (oracle : Nat → EmbedOutcome) :
    (embedItem oracle).attempts ≤ MAX_RETRIES ∧
    (embedItem oracle).delays =
      (List.range ((embedItem oracle).attempts - 1)).map
        (fun j => BASE_DELAY_MS * 2 ^ j) ∧
    (∀ m a d, embedItem oracle = .exhausted m a d →
      a = MAX_RETRIES ∧ ∃ emsg, m = exhaustedEmbedReason emsg) ∧
    (∀ (env : RunEnv) (inp : RunInput) (s s1 : Store) (vid : Nat)
        (evs0 evs : List Event) (reason : String),
      openVersion s inp.providerId inp.newId inp.now = (s1, some vid, evs0) →
      env.insertThrow = none →
      embedStage env.embed inp.skus.length = .aborted evs reason →
      ∃ stc, Event.handlerInvoked vid stc reason ∈ (processCatalogModel env inp s).2) := by
  have h := embedLoopGo_spec oracle MAX_RETRIES 0 (embedItem oracle)
    (by simp) (by simp [MAX_RETRIES]) rfl
  refine ⟨h.1.2, h.2.1, h.2.2, ?_⟩
  intro env inp s s1 vid evs0 evs reason hopen hins hstage
  refine ⟨statusOf (stageItems s1 inp.providerId vid inp.skus).versions vid, ?_⟩
  unfold processCatalogModel
  rw [hopen]
  unfold runFromOpened
  rw [hins]
  unfold runFromStaged
  rw [hstage]
  simp [handleProcessFailure]

/-- Concrete one-item run fixtures: a provider catalog of one sku whose
first embedding attempt fails with a non-retryable 401-classified error. -/
def c5store : Store := ⟨[7], [], [], [], []⟩

def c5inp : RunInput := ⟨7, 1, 0, ["A"]⟩

def c5env : RunEnv :=
  ⟨fun _ _ => .err false "401", fun _ _ => none, none, ⟨none, none, none, false, false⟩⟩

/-- C5 witness: the bound, the exhaustion shape on an always-failing oracle
(3 attempts, backoff 500 then 1000), and the Failure Handler invocation on
the concrete aborted run. -/
theorem c5_embed_three_attempts_backoff_witness :
    ((embedItem (fun _ => EmbedOutcome.err true "boom")).attempts ≤ MAX_RETRIES) ∧
    ((3 : Nat) = MAX_RETRIES ∧
      ∃ emsg, exhaustedEmbedReason "boom" = exhaustedEmbedReason emsg) ∧
    (∃ stc, Event.handlerInvoked 1 stc (nonRetryableEmbedReason "401")
      ∈ (processCatalogModel c5env c5inp c5store).2) := by
  refine ⟨(c5_embed_three_attempts_backoff _).1, ?_, ?_⟩
  · exact (c5_embed_three_attempts_backoff (fun _ => EmbedOutcome.err true "boom")).2.2.1
      (exhaustedEmbedReason "boom") 3 [500, 1000] rfl
  · exact (c5_embed_three_attempts_backoff (fun _ => EmbedOutcome.err true "boom")).2.2.2
      c5env c5inp c5store _ 1 [] [Event.embedCall 0 0] (nonRetryableEmbedReason "401")
      rfl rfl rfl

/-! ## Claim C6: non-retryable embedding errors abort the whole run -/

theorem openVersion_some {s : Store} {p newId now : Nat} {s1 : Store}
    {vid : Nat} {evs0 : List Event}
    (h : openVersion s p newId now = (s1, some vid, evs0)) :
    vid = newId ∧
    s1 = { s with versions := s.versions ++
      [⟨newId, p, nextVersionNumber s.versions p, VStatus.PROCESSING, now⟩] } ∧
    evs0 = [] := by
  unfold openVersion at h
  dsimp only at h
  split_ifs at h
  · rw [Prod.ext_iff, Prod.ext_iff] at h
    simp only at h
    exact absurd h.2.1 (by simp)
  · rw [Prod.ext_iff, Prod.ext_iff] at h
    simp only at h
    exact absurd h.2.1 (by simp)
  · rw [Prod.ext_iff, Prod.ext_iff] at h
    obtain ⟨hh1, hh2, hh3⟩ := h
    simp only at hh1 hh2 hh3
    injection hh2 with hh2
    exact ⟨hh2.symm, hh1.symm, hh3.symm⟩

theorem statusOf_append_self_isSome (vs : List VersionRow) (row : VersionRow) :
    ∃ st, statusOf (vs ++ [row]) row.id = some st := by
  induction vs with
  | nil =>
    refine ⟨row.status, ?_⟩
    rw [List.nil_append, statusOf_cons, if_pos rfl]
  | cons a t ih =>
    rw [List.cons_append, statusOf_cons]
    by_cases ha : a.id = row.id
    · exact ⟨a.status, by rw [if_pos ha]⟩
    · rw [if_neg ha]; exact ih

/-- Composition of the pipeline on the embed-abort path: the run is the
Failure Handler applied to the staged store, and the events are the
version-opening events, the stage events, then the handler events. -/
theorem run_embed_abort (env : RunEnv) (inp : RunInput) (s s1 : Store)
    (vid : Nat) (evs0 evs : List Event) (reason : String)
    (hopen : openVersion s inp.providerId inp.newId inp.now = (s1, some vid, evs0))
    (hins : env.insertThrow = none)
    (hstage : embedStage env.embed inp.skus.length = .aborted evs reason) :
    processCatalogModel env inp s =
      ((handleProcessFailure (stageItems s1 inp.providerId vid inp.skus)
          inp.providerId vid reason).1,
       evs0 ++ (evs ++ (handleProcessFailure (stageItems s1 inp.providerId vid inp.skus)
          inp.providerId vid reason).2)) := by
  unfold processCatalogModel runFromOpened runFromStaged
  rw [hopen, hins, hstage]

theorem mem_itemEvents_embedCall {j a i : Nat} {r : ItemRes} :
    Event.embedCall j a ∈ itemEvents i r ↔ j = i ∧ a < r.attempts := by
  unfold itemEvents
  simp [List.mem_append, List.mem_map, List.mem_range]
  constructor
  · rintro ⟨x, y⟩; exact ⟨y.symm, x⟩
  · rintro ⟨x, y⟩; exact ⟨y, x.symm⟩

theorem itemEvents_shape {i : Nat} {r : ItemRes} {e : Event}
    (he : e ∈ itemEvents i r) :
    (∃ a, e = Event.embedCall i a) ∨ (∃ ms, e = Event.delayMs ms) := by
  unfold itemEvents at he
  rcases List.mem_append.mp he with h | h
  · rcases List.mem_map.mp h with ⟨a, _, ha⟩
    exact Or.inl ⟨a, ha.symm⟩
  · rcases List.mem_map.mp h with ⟨ms, _, hm⟩
    exact Or.inr ⟨ms, hm.symm⟩

theorem embedStageGo_success_front (oracle : Nat → Nat → EmbedOutcome)
    (l1 : List Nat) :
    ∀ (l2 : List Nat) (evs : List Event),
      (∀ j ∈ l1, (embedItem (oracle j)).isSuccess = true) →
      embedStageGo oracle (l1 ++ l2) evs =
        embedStageGo oracle l2
          (evs ++ (l1.map (fun j => itemEvents j (embedItem (oracle j)))).flatten) := by
  induction l1 with
  | nil => intro l2 evs _; simp
  | cons i l1 ih =>
    intro l2 evs h1
    have hi := h1 i (List.mem_cons_self i l1)
    rw [List.cons_append]
    cases hres : embedItem (oracle i) with
    | success a d =>
      simp only [embedStageGo]
      rw [hres]
      dsimp only
      rw [ih l2 (evs ++ itemEvents i (ItemRes.success a d))
        (fun j hj => h1 j (List.mem_cons_of_mem i hj))]
      simp [hres, List.append_assoc]
    | nonRetryable m a d => rw [hres] at hi; simp [ItemRes.isSuccess] at hi
    | exhausted m a d => rw [hres] at hi; simp [ItemRes.isSuccess] at hi

theorem embedStageGo_abort_head (oracle : Nat → Nat → EmbedOutcome)
    (i : Nat) (rest : List Nat) (evs : List Event)
    (rsn : String) (k : Nat) (d : List Nat)
    (hfail : embedItem (oracle i) = .nonRetryable rsn k d) :
    embedStageGo oracle (i :: rest) evs =
      .aborted (evs ++ itemEvents i (ItemRes.nonRetryable rsn k d)) rsn := by
  simp only [embedStageGo]
  rw [hfail]

/-- Splitting the item index list at the first failing item. -/
theorem range_split (n i : Nat) (hi : i < n) :
    List.range n = List.range i ++ i ::
      (List.range (n - i - 1)).map (fun x => (i + 1) + x) := by
  have hn : n = (i + 1) + (n - i - 1) := by omega
  conv_lhs => rw [hn]
  rw [List.range_add, List.range_succ]
  simp [List.append_assoc]

/-- C6: whenever the embedding of some item fails with an error classified
non-retryable on any attempt (all earlier items having succeeded), the run
aborts immediately: the failing item records exactly the attempts made so
far, no later item is ever embedded, no vector batch is ever upserted, the
version is marked FAILED through the Failure Handler with the triggering
reason, and the vector index is left exactly as it was. -/
theorem c6_nonretryable_embed_aborts_run
    (env : RunEnv) (inp : RunInput) (s s1 : Store) (vid : Nat)
    (evs0 : List Event) (i k : Nat) (rsn : String) (d : List Nat)
    (hopen : openVersion s inp.providerId inp.newId inp.now = (s1, some vid, evs0))
    (hins : env.insertThrow = none)
    (hi : i < inp.skus.length)
    (hpre : ∀ j, j < i → (embedItem (env.embed j)).isSuccess = true)
    (hfail : embedItem (env.embed i) = ItemRes.nonRetryable rsn k d) :
    (∀ a, Event.embedCall i a ∈ (processCatalogModel env inp s).2 ↔ a < k) ∧
    (∀ j a, Event.embedCall j a ∈ (processCatalogModel env inp s).2 → j ≤ i) ∧
    (∀ c b, Event.upsertBatch c b ∉ (processCatalogModel env inp s).2) ∧
    (∃ stc, Event.handlerInvoked vid stc rsn ∈ (processCatalogModel env inp s).2) ∧
    statusOf (processCatalogModel env inp s).1.versions vid = some VStatus.FAILED ∧
    (processCatalogModel env inp s).1.vectors = s.vectors := by
  obtain ⟨hvid, hs1, hevs0⟩ := openVersion_some hopen
  -- the embedding stage aborts at item i with the triggering reason
  have hstage : embedStage env.embed inp.skus.length =
      .aborted
        (((List.range i).map (fun j => itemEvents j (embedItem (env.embed j)))).flatten
          ++ itemEvents i (ItemRes.nonRetryable rsn k d)) rsn := by
    unfold embedStage
    rw [range_split inp.skus.length i hi]
    rw [embedStageGo_success_front env.embed (List.range i) _ []
      (fun j hj => hpre j (List.mem_range.mp hj))]
    rw [embedStageGo_abort_head env.embed i _ _ rsn k d hfail]
    simp
  have hrun := run_embed_abort env inp s s1 vid evs0 _ rsn hopen hins hstage
  rw [hrun]
  -- names for the pieces
  set s2 := stageItems s1 inp.providerId vid inp.skus with hs2
  have hev2 : (handleProcessFailure s2 inp.providerId vid rsn).2 =
      [Event.handlerInvoked vid (statusOf s2.versions vid) rsn, Event.audit rsn] := rfl
  have hprefix : ∀ e ∈ ((List.range i).map
      (fun j => itemEvents j (embedItem (env.embed j)))).flatten,
      ∃ j, j < i ∧ e ∈ itemEvents j (embedItem (env.embed j)) := by
    intro e he
    rcases List.mem_flatten.mp he with ⟨L, hL, heL⟩
    rcases List.mem_map.mp hL with ⟨j, hj, hLj⟩
    exact ⟨j, List.mem_range.mp hj, hLj ▸ heL⟩
  refine ⟨?_, ?_, ?_, ?_, ?_, ?_⟩
  · intro a
    rw [hevs0]
    simp only [List.nil_append, List.mem_append, hev2]
    constructor
    · intro h
      rcases h with h | h
      · rcases h with h | h
        · rcases hprefix _ h with ⟨j, hj, hmem⟩
          have := mem_itemEvents_embedCall.mp hmem
          omega
        · have := mem_itemEvents_embedCall.mp h
          simpa [ItemRes.attempts] using this.2
      · simp at h
    · intro ha
      refine Or.inl (Or.inr ?_)
      exact mem_itemEvents_embedCall.mpr ⟨rfl, by simpa [ItemRes.attempts] using ha⟩
  · intro j a h
    rw [hevs0] at h
    simp only [List.nil_append, List.mem_append, hev2] at h
    rcases h with h | h
    · rcases h with h | h
      · rcases hprefix _ h with ⟨j', hj', hmem⟩
        have := mem_itemEvents_embedCall.mp hmem
        omega
      · have := mem_itemEvents_embedCall.mp h
        omega
    · simp at h
  · intro c b h
    rw [hevs0] at h
    simp only [List.nil_append, List.mem_append, hev2] at h
    rcases h with h | h
    · rcases h with h | h
      · rcases hprefix _ h with ⟨j', _, hmem⟩
        rcases itemEvents_shape hmem with ⟨a, ha⟩ | ⟨ms, hms⟩ <;> simp_all
      · rcases itemEvents_shape h with ⟨a, ha⟩ | ⟨ms, hms⟩ <;> simp_all
    · simp at h
  · refine ⟨statusOf s2.versions vid, ?_⟩
    rw [hevs0]
    simp [hev2]
  · have hmem : ∃ st, statusOf s2.versions vid = some st := by
      have : s2.versions = s.versions ++
          [⟨inp.newId, inp.providerId,
            nextVersionNumber s.versions inp.providerId, VStatus.PROCESSING, inp.now⟩] := by
        rw [hs2, hs1]
        rfl
      rw [this, hvid]
      exact statusOf_append_self_isSome s.versions _
    rcases hmem with ⟨st, hst⟩
    show statusOf (updStatus vid VStatus.FAILED s2.versions) vid = some VStatus.FAILED
    rw [statusOf_updStatus_self, hst]
    rfl
  · show s2.vectors = s.vectors
    rw [hs2, hs1]
    rfl

/-- Concrete two-item run whose first item's first embedding attempt throws
a 401-classified (non-retryable) error. -/
def c6store : Store := ⟨[7], [], [], [], []⟩

def c6inp : RunInput := ⟨7, 1, 0, ["A", "B"]⟩

def c6env : RunEnv :=
  ⟨fun _ _ => .err false "401", fun _ _ => none, none, ⟨none, none, none, false, false⟩⟩

/-- C6 witness: the 401-on-first-attempt scenario of the spec, evaluated on
a concrete two-item catalog. -/
theorem c6_nonretryable_embed_aborts_run_witness :
    (∀ a, Event.embedCall 0 a ∈ (processCatalogModel c6env c6inp c6store).2 ↔ a < 1) ∧
    (∀ j a, Event.embedCall j a ∈ (processCatalogModel c6env c6inp c6store).2 → j ≤ 0) ∧
    (∀ c b, Event.upsertBatch c b ∉ (processCatalogModel c6env c6inp c6store).2) ∧
    (∃ stc, Event.handlerInvoked 1 stc (nonRetryableEmbedReason "401")
      ∈ (processCatalogModel c6env c6inp c6store).2) ∧
    statusOf (processCatalogModel c6env c6inp c6store).1.versions 1 = some VStatus.FAILED ∧
    (processCatalogModel c6env c6inp c6store).1.vectors = c6store.vectors :=
  c6_nonretryable_embed_aborts_run c6env c6inp c6store _ 1 [] 0 1
    (nonRetryableEmbedReason "401") [] rfl rfl (by decide)
    (fun j hj => absurd hj (by omega)) rfl

/-! ## Claim C7: the retryable classification -/

/-- C7 counterexample: a DNS failure (Node error message carrying
"ENOTFOUND", no HTTP status) is a transport-level error, so the claimed
shared classification marks it retryable; but `handlePineconeError` only
looks for "ECONNRESET", "ETIMEDOUT" and "fetch failed" in the message, so
the Vector Publisher classifies this DNS failure as non-retryable.  The two
services therefore do not share the claimed classification. -/
theorem c7_dns_failure_counterexample :
    specPineconeRetryable none "getaddrinfo ENOTFOUND controller.pinecone.io" = true ∧
    pcClassifyRetryable none "getaddrinfo ENOTFOUND controller.pinecone.io" = false := by
  constructor <;> decide

/-- C7 amended: each service has its own classifier.  The Embedding
Generator marks an error retryable iff it carries status 429, a status in
500–599, or a network code ECONNRESET/ETIMEDOUT/ENOTFOUND — except that a
status of 400, 401, 403 or 404 always forces non-retryable.  The Vector
Publisher marks an error retryable iff it carries status 429, any status of
at least 500 (no 599 cap), or a message containing "ECONNRESET",
"ETIMEDOUT" or "fetch failed"; a DNS failure (ENOTFOUND) is not recognized
there. -/
theorem c7_retryable_classification_per_service :
    (∀ (status : Option Nat) (code : Option String),
      embClassifyRetryable status code = true ↔
        ((status = some 429 ∨ (∃ n, status = some n ∧ 500 ≤ n ∧ n < 600) ∨
          code = some "ECONNRESET" ∨ code = some "ETIMEDOUT" ∨
          code = some "ENOTFOUND") ∧
         status ≠ some 400 ∧ status ≠ some 401 ∧
         status ≠ some 403 ∧ status ≠ some 404)) ∧
    (∀ (status : Option Nat) (message : String),
      pcClassifyRetryable status message = true ↔
        (status = some 429 ∨ (∃ n, status = some n ∧ 500 ≤ n) ∨
         strIncludes message "ECONNRESET" = true ∨
         strIncludes message "ETIMEDOUT" = true ∨
         strIncludes message "fetch failed" = true)) := by
  constructor
  · intro status code
    rcases status with _ | n
    · by_cases hc1 : code = some "ECONNRESET" <;>
      by_cases hc2 : code = some "ETIMEDOUT" <;>
      by_cases hc3 : code = some "ENOTFOUND" <;>
        simp [embClassifyRetryable, hc1, hc2, hc3]
    · by_cases hc1 : code = some "ECONNRESET" <;>
      by_cases hc2 : code = some "ETIMEDOUT" <;>
      by_cases hc3 : code = some "ENOTFOUND" <;>
        (simp only [embClassifyRetryable, Option.some.injEq, hc1, hc2, hc3]
         split_ifs <;> simp_all <;> omega)
  · intro status message
    rcases status with _ | n
    · by_cases hm1 : strIncludes message "ECONNRESET" = true <;>
      by_cases hm2 : strIncludes message "ETIMEDOUT" = true <;>
      by_cases hm3 : strIncludes message "fetch failed" = true <;>
        simp [pcClassifyRetryable, hm1, hm2, hm3]
    · by_cases hm1 : strIncludes message "ECONNRESET" = true <;>
      by_cases hm2 : strIncludes message "ETIMEDOUT" = true <;>
      by_cases hm3 : strIncludes message "fetch failed" = true <;>
        (simp only [pcClassifyRetryable, Option.some.injEq, hm1, hm2, hm3]
         split_ifs <;> simp_all)

/-- C7 witness: both characterizations applied at a concrete 503 error. -/
theorem c7_retryable_classification_per_service_witness :
    embClassifyRetryable (some 503) none = true ∧
    pcClassifyRetryable (some 503) "boom" = true := by
  constructor
  · exact (c7_retryable_classification_per_service.1 (some 503) none).mpr
      ⟨Or.inr (Or.inl ⟨503, rfl, by omega, by omega⟩),
       by simp, by simp, by simp, by simp⟩
  · exact (c7_retryable_classification_per_service.2 (some 503) "boom").mpr
      (Or.inr (Or.inl ⟨503, rfl, by omega⟩))

/-! ## Claims C9 and C10: the version-opening conflict path -/

theorem openVersion_dup {s : Store} {p newId now : Nat}
    (hdup : (s.versions.any fun v =>
      decide (v.providerId = p ∧ v.versionNumber = nextVersionNumber s.versions p)) = true) :
    openVersion s p newId now =
      ({ s with audits := s.audits ++ [dupVersionReason] },
       none, [Event.audit dupVersionReason]) := by
  unfold openVersion
  dsimp only
  rw [if_pos hdup]

theorem openVersion_fk {s : Store} {p newId now : Nat}
    (hdup : ¬(s.versions.any fun v =>
      decide (v.providerId = p ∧ v.versionNumber = nextVersionNumber s.versions p)) = true)
    (hfk : (decide (p ∈ s.providers)) = false) :
    openVersion s p newId now =
      ({ s with audits := s.audits ++ [fkFailedReason] },
       none, [Event.audit fkFailedReason]) := by
  unfold openVersion
  dsimp only
  rw [if_neg hdup, if_pos hfk]

theorem findFirstActive_eq_none {vs : List VersionRow} {p : Nat}
    (h : ∀ v ∈ vs, v.providerId = p → v.status ≠ VStatus.ACTIVE) :
    findFirstActive vs p = none := by
  unfold findFirstActive
  have hnil : activeRows vs p = [] := by
    apply List.filter_eq_nil_iff.mpr
    intro v hv
    simp only [activeForB, decide_eq_true_eq, not_and]
    exact h v hv
  rw [hnil]

/-- C9 counterexample fixtures: a provider whose only catalog version (number
1) is FAILED; the next upload recomputes number 1 and hits the unique
constraint. -/
def c9store : Store := ⟨[7], [⟨1, 7, 1, VStatus.FAILED, 0⟩], [], [], []⟩

def c9inp : RunInput := ⟨7, 2, 5, ["A"]⟩

def c9env : RunEnv :=
  ⟨fun _ _ => .ok, fun _ _ => none, none, ⟨none, none, none, false, false⟩⟩

/-- C9 counterexample: on a conflicting open, the run only audits the
conflict reason and returns — `handleProcessFailure` is never invoked, no
version is marked FAILED by the run (the table is left untouched), and no
staged items are cleaned (none exist). -/
theorem c9_conflict_skips_failure_handler_counterexample :
    (processCatalogModel c9env c9inp c9store).2 = [Event.audit dupVersionReason] ∧
    (∀ vid stc rsn,
      Event.handlerInvoked vid stc rsn ∉ (processCatalogModel c9env c9inp c9store).2) ∧
    (processCatalogModel c9env c9inp c9store).1.versions = c9store.versions ∧
    (processCatalogModel c9env c9inp c9store).1.items = c9store.items := by
  refine ⟨rfl, ?_, rfl, rfl⟩
  intro vid stc rsn h
  have hev : (processCatalogModel c9env c9inp c9store).2 =
      [Event.audit dupVersionReason] := rfl
  rw [hev] at h
  simp at h

/-- C9 amended: a relational conflict in the version-opening transaction
(duplicate version number, or broken foreign key) is not retried and is
reported through a direct audit record only: the run returns at once with
the mapped reason, the Failure Handler is not invoked (there is no version
row to mark FAILED), and versions, items and vectors are left untouched. -/
theorem c9_conflict_audited_without_handler :
    (∀ (env : RunEnv) (inp : RunInput) (s : Store),
      (s.versions.any fun v =>
        decide (v.providerId = inp.providerId ∧
          v.versionNumber = nextVersionNumber s.versions inp.providerId)) = true →
      processCatalogModel env inp s =
        ({ s with audits := s.audits ++ [dupVersionReason] },
         [Event.audit dupVersionReason])) ∧
    (∀ (env : RunEnv) (inp : RunInput) (s : Store),
      ¬(s.versions.any fun v =>
        decide (v.providerId = inp.providerId ∧
          v.versionNumber = nextVersionNumber s.versions inp.providerId)) = true →
      (decide (inp.providerId ∈ s.providers)) = false →
      processCatalogModel env inp s =
        ({ s with audits := s.audits ++ [fkFailedReason] },
         [Event.audit fkFailedReason])) := by
  constructor
  · intro env inp s hdup
    unfold processCatalogModel
    rw [openVersion_dup hdup]
  · intro env inp s hdup hfk
    unfold processCatalogModel
    rw [openVersion_fk hdup hfk]

/-- C9 witness: the amended behaviour evaluated on the concrete conflicting
store. -/
theorem c9_conflict_audited_without_handler_witness :
    processCatalogModel c9env c9inp c9store =
      ({ c9store with audits := c9store.audits ++ [dupVersionReason] },
       [Event.audit dupVersionReason]) :=
  c9_conflict_audited_without_handler.1 c9env c9inp c9store (by decide)

/-- Repeated pipeline runs, threading the store. -/
def iterRuns (envs : Nat → RunEnv) (inps : Nat → RunInput) : Nat → Store → Store
  | 0, s => s
  | n + 1, s => (processCatalogModel (envs n) (inps n) (iterRuns envs inps n s)).1

/-- C10: a provider with no ACTIVE version that already owns a row numbered
1 is permanently stuck: every run recomputes `nextNumber = 1`, hits the
(providerId, versionNumber) unique constraint, audits
"Duplicate version number" and returns; any number of subsequent runs
leaves the version table exactly as it was, so no version of that provider
can ever become ACTIVE through this pipeline. -/
theorem c10_failed_first_version_wedges_provider
    (s : Store) (p : Nat)
    (hnoactive : ∀ v ∈ s.versions, v.providerId = p → v.status ≠ VStatus.ACTIVE)
    (hone : ∃ v ∈ s.versions, v.providerId = p ∧ v.versionNumber = 1) :
    (∀ (env : RunEnv) (inp : RunInput), inp.providerId = p →
      processCatalogModel env inp s =
        ({ s with audits := s.audits ++ [dupVersionReason] },
         [Event.audit dupVersionReason])) ∧
    (∀ (envs : Nat → RunEnv) (inps : Nat → RunInput),
      (∀ k, (inps k).providerId = p) →
      ∀ n, (iterRuns envs inps n s).versions = s.versions ∧
        (∀ v ∈ (iterRuns envs inps n s).versions,
          v.providerId = p → v.status ≠ VStatus.ACTIVE)) := by
  have hnum : nextVersionNumber s.versions p = 1 := by
    unfold nextVersionNumber
    rw [findFirstActive_eq_none hnoactive]
  have hdup : ∀ (t : Store), t.versions = s.versions →
      (t.versions.any fun v =>
        decide (v.providerId = p ∧ v.versionNumber = nextVersionNumber t.versions p)) = true := by
    intro t ht
    rw [ht]
    rcases hone with ⟨v, hv, hvp, hv1⟩
    refine List.any_eq_true.mpr ⟨v, hv, ?_⟩
    rw [hnum]
    exact decide_eq_true ⟨hvp, hv1⟩
  have hrun : ∀ (env : RunEnv) (inp : RunInput) (t : Store),
      inp.providerId = p → t.versions = s.versions →
      processCatalogModel env inp t =
        ({ t with audits := t.audits ++ [dupVersionReason] },
         [Event.audit dupVersionReason]) := by
    intro env inp t hp ht
    unfold processCatalogModel
    rw [openVersion_dup (by rw [hp]; exact hdup t ht)]
  constructor
  · intro env inp hp
    exact hrun env inp s hp rfl
  · intro envs inps hp n
    induction n with
    | zero => exact ⟨rfl, hnoactive⟩
    | succ n ihn =>
      have hstep := hrun (envs n) (inps n) (iterRuns envs inps n s) (hp n) ihn.1
      have : (iterRuns envs inps (n + 1) s).versions = s.versions := by
        show (processCatalogModel (envs n) (inps n) (iterRuns envs inps n s)).1.versions
          = s.versions
        rw [hstep]
        exact ihn.1
      refine ⟨this, ?_⟩
      rw [this]
      exact hnoactive

/-- C10 witness: the wedged-provider behaviour on a concrete store whose
only version row is (provider 7, number 1, FAILED), iterated twice. -/
def c10store : Store := ⟨[7], [⟨1, 7, 1, VStatus.FAILED, 0⟩], [], [], []⟩

def c10inp : RunInput := ⟨7, 3, 9, ["X"]⟩

def c10env : RunEnv :=
  ⟨fun _ _ => .ok, fun _ _ => none, none, ⟨none, none, none, false, false⟩⟩

theorem c10_failed_first_version_wedges_provider_witness :
    processCatalogModel c10env c10inp c10store =
      ({ c10store with audits := c10store.audits ++ [dupVersionReason] },
       [Event.audit dupVersionReason]) ∧
    (iterRuns (fun _ => c10env) (fun _ => c10inp) 2 c10store).versions =
      c10store.versions := by
  have h := c10_failed_first_version_wedges_provider c10store 7
    (by decide) (by decide)
  exact ⟨h.1 c10env c10inp rfl, (h.2 (fun _ => c10env) (fun _ => c10inp) (fun _ => rfl) 2).1⟩

/-! ## Claim C8: Vector Publisher batching and retry -/

theorem batchSlice_zero (skus : List String) :
    batchSlice skus 0 = skus.take BATCH_SIZE := by
  unfold batchSlice
  rw [Nat.mul_zero, List.drop_zero]

theorem batchSlice_succ (skus : List String) (b : Nat) :
    batchSlice skus (b + 1) = batchSlice (skus.drop BATCH_SIZE) b := by
  unfold batchSlice BATCH_SIZE
  rw [List.drop_drop]
  congr 2
  omega

theorem numBatches_zero : numBatches 0 = 0 := by decide

theorem numBatches_pos (n : Nat) (h : 0 < n) :
    numBatches n = numBatches (n - BATCH_SIZE) + 1 := by
  unfold numBatches BATCH_SIZE
  omega

/-- The batches are exactly the 100-sized consecutive slices: concatenating
them in order reproduces the vector list. -/
theorem batches_flatten :
    ∀ (n : Nat) (skus : List String), skus.length = n →
      ((List.range (numBatches n)).map (batchSlice skus)).flatten = skus := by
  intro n
  induction n using Nat.strong_induction_on with
  | _ n ih =>
    intro skus hlen
    by_cases h0 : n = 0
    · subst h0
      rw [numBatches_zero]
      simp
      exact List.length_eq_zero.mp hlen
    · rw [numBatches_pos n (by omega), List.range_succ_eq_map]
      rw [List.map_cons, List.map_map, List.flatten_cons, batchSlice_zero]
      have hcomp : (batchSlice skus ∘ Nat.succ) = batchSlice (skus.drop BATCH_SIZE) :=
        funext (fun b => batchSlice_succ skus b)
      rw [hcomp]
      rw [ih (n - BATCH_SIZE) (by unfold BATCH_SIZE; omega) (skus.drop BATCH_SIZE)
        (by rw [List.length_drop, hlen])]
      exact List.take_append_drop BATCH_SIZE skus

theorem batchSlice_length_le (skus : List String) (b : Nat) :
    (batchSlice skus b).length ≤ BATCH_SIZE := by
  unfold batchSlice
  rw [List.length_take]
  exact Nat.min_le_left BATCH_SIZE _

/-- Every `upsertProviderVectors` call issues its batches starting from the
first one, in consecutive order: the issued indices are `0, 1, ..., k-1`. -/
theorem upsertCallGo_issued (p vid : Nat) (skus : List String) (fails : BatchOracle) :
    ∀ (remaining : Nat) (b : Nat) (s : Store),
      ∃ k, k ≤ remaining ∧
        (upsertCallGo s p vid skus fails remaining b).2.1 =
          (List.range k).map (fun x => b + x) := by
  intro remaining
  induction remaining with
  | zero => intro b s; exact ⟨0, Nat.le_refl 0, by simp [upsertCallGo]⟩
  | succ remaining ih =>
    intro b s
    unfold upsertCallGo
    cases hf : fails b with
    | some e =>
      refine ⟨1, by omega, ?_⟩
      rw [show List.range 1 = [0] from rfl]
      simp
    | none =>
      obtain ⟨k, hk, hiss⟩ := ih (b + 1) (applyBatchUpsert s p vid (batchSlice skus b))
      refine ⟨k + 1, by omega, ?_⟩
      dsimp only
      rw [hiss, List.range_succ_eq_map, List.map_cons, List.map_map]
      congr 1
      apply List.map_congr_left
      intro x _
      simp
      omega

theorem upsertCall_issued (s : Store) (p vid : Nat) (skus : List String)
    (fails : BatchOracle) :
    ∃ k, k ≤ numBatches skus.length ∧
      (upsertCall s p vid skus fails).2.1 = List.range k := by
  obtain ⟨k, hk, hiss⟩ := upsertCallGo_issued p vid skus fails
    (numBatches skus.length) 0 s
  refine ⟨k, hk, ?_⟩
  unfold upsertCall
  rw [hiss]
  simp

/-- Batch-upsert events of the retry loop: every recorded batch upsert
belongs to one of the at most `MAX_RETRIES` calls and to a real batch, and
within one call the issued batches are downward closed (batch `x+1` is only
ever issued after batch `x` — each call restarts from the first batch). -/
theorem upsertRetryGo_batch_events (p vid : Nat) (skus : List String)
    (oracle : Nat → BatchOracle) :
    ∀ (fuel attempt : Nat) (s : Store) (evs : List Event),
      (∀ c x, Event.upsertBatch c x ∈ evs → c < attempt ∧ x < numBatches skus.length) →
      (∀ c x, Event.upsertBatch c (x + 1) ∈ evs → Event.upsertBatch c x ∈ evs) →
      attempt + fuel ≤ MAX_RETRIES →
      (∀ c x, Event.upsertBatch c x ∈
          (upsertRetryGo p vid skus oracle s attempt fuel evs).events →
        c < MAX_RETRIES ∧ x < numBatches skus.length) ∧
      (∀ c x, Event.upsertBatch c (x + 1) ∈
          (upsertRetryGo p vid skus oracle s attempt fuel evs).events →
        Event.upsertBatch c x ∈
          (upsertRetryGo p vid skus oracle s attempt fuel evs).events) := by
  intro fuel
  induction fuel with
  | zero =>
    intro attempt s evs hbound hcont hle
    constructor
    · intro c x h
      have := hbound c x h
      omega
    · intro c x h
      exact hcont c x h
  | succ fuel ih =>
    intro attempt s evs hbound hcont hle
    obtain ⟨k, hk, hiss⟩ := upsertCall_issued s p vid skus (oracle attempt)
    unfold upsertRetryGo
    rcases hcall : upsertCall s p vid skus (oracle attempt) with ⟨s', issued, e⟩
    have hissued : issued = List.range k := by
      rw [hcall] at hiss
      exact hiss
    subst hissued
    -- the events after this call
    have hbound' : ∀ c x,
        Event.upsertBatch c x ∈ evs ++ (List.range k).map (fun b => Event.upsertBatch attempt b) →
        c < attempt + 1 ∧ x < numBatches skus.length := by
      intro c x h
      rcases List.mem_append.mp h with h | h
      · have := hbound c x h; omega
      · rcases List.mem_map.mp h with ⟨b, hb, hbe⟩
        injection hbe with hc1 hc2
        have := List.mem_range.mp hb
        omega
    have hcont' : ∀ c x,
        Event.upsertBatch c (x + 1) ∈
          evs ++ (List.range k).map (fun b => Event.upsertBatch attempt b) →
        Event.upsertBatch c x ∈
          evs ++ (List.range k).map (fun b => Event.upsertBatch attempt b) := by
      intro c x h
      rcases List.mem_append.mp h with h | h
      · exact List.mem_append.mpr (Or.inl (hcont c x h))
      · rcases List.mem_map.mp h with ⟨b, hb, hbe⟩
        have hc1 : attempt = c := by injection hbe
        have hc2 : b = x + 1 := by injection hbe
        refine List.mem_append.mpr (Or.inr ?_)
        refine List.mem_map.mpr ⟨x, ?_, by rw [hc1]⟩
        rw [List.mem_range] at hb ⊢
        omega
    cases e with
    | none =>
      dsimp only
      exact ⟨fun c x h => by have := hbound' c x h; constructor <;> omega,
             fun c x h => hcont' c x h⟩
    | some rm =>
      rcases rm with ⟨retryable, msg⟩
      dsimp only
      by_cases hre : retryable = false
      · rw [if_pos hre]
        exact ⟨fun c x h => by have := hbound' c x h; constructor <;> omega,
               fun c x h => hcont' c x h⟩
      · rw [if_neg hre]
        by_cases hlt : attempt + 1 < MAX_RETRIES
        · rw [if_pos hlt]
          apply ih (attempt + 1) s'
          · intro c x h
            rcases List.mem_append.mp h with h | h
            · exact hbound' c x h
            · simp at h
          · intro c x h
            rcases List.mem_append.mp h with h | h
            · exact List.mem_append.mpr (Or.inl (hcont' c x h))
            · simp at h
          · omega
        · rw [if_neg hlt]
          exact ⟨fun c x h => by have := hbound' c x h; constructor <;> omega,
                 fun c x h => hcont' c x h⟩

/-- Composition of the pipeline on the upsert-abort path. -/
theorem run_upsert_abort (env : RunEnv) (inp : RunInput) (s s1 s3 : Store)
    (vid : Nat) (evs0 evs uevs : List Event) (reason : String)
    (hopen : openVersion s inp.providerId inp.newId inp.now = (s1, some vid, evs0))
    (hins : env.insertThrow = none)
    (hembed : embedStage env.embed inp.skus.length = .ok evs)
    (hups : upsertStage (stageItems s1 inp.providerId vid inp.skus)
      inp.providerId vid inp.skus env.upsert = .aborted s3 uevs reason) :
    processCatalogModel env inp s =
      ((handleProcessFailure s3 inp.providerId vid reason).1,
       evs0 ++ (evs ++ uevs ++ (handleProcessFailure s3 inp.providerId vid reason).2)) := by
  unfold processCatalogModel
  rw [hopen]
  dsimp only
  unfold runFromOpened
  rw [hins]
  dsimp only
  unfold runFromStaged
  rw [hembed]
  dsimp only
  rw [hups]

/-- C8 amended: `upsertProviderVectors` splits the vectors into consecutive
fixed-size groups of `BATCH_SIZE = 100` whose concatenation is the whole
vector list, and upserts them strictly in order from the first one; the
3-attempt retry with exponential backoff and the retryable/non-retryable
classification are applied per publish call, not per batch — a retry
re-runs the entire call starting again from batch 0 (batch `x+1` is only
ever issued in a call that issued batch `x` before it), re-upserting
batches that already succeeded; retry exhaustion or a non-retryable error
aborts the run to the Failure Handler with the triggering reason. -/
theorem c8_upsert_batching_per_call_retry :
    (∀ (skus : List String),
      ((List.range (numBatches skus.length)).map (batchSlice skus)).flatten = skus ∧
      ∀ b, (batchSlice skus b).length ≤ BATCH_SIZE) ∧
    (∀ (s : Store) (p vid : Nat) (skus : List String) (fails : BatchOracle),
      ∃ k, k ≤ numBatches skus.length ∧
        (upsertCall s p vid skus fails).2.1 = List.range k) ∧
    (∀ (s : Store) (p vid : Nat) (skus : List String)
        (oracle : Nat → BatchOracle) (c x : Nat),
      Event.upsertBatch c x ∈ (upsertStage s p vid skus oracle).events →
      c < MAX_RETRIES ∧ x < numBatches skus.length) ∧
    (∀ (s : Store) (p vid : Nat) (skus : List String)
        (oracle : Nat → BatchOracle) (c x : Nat),
      Event.upsertBatch c (x + 1) ∈ (upsertStage s p vid skus oracle).events →
      Event.upsertBatch c x ∈ (upsertStage s p vid skus oracle).events) ∧
    (∀ (env : RunEnv) (inp : RunInput) (s s1 s3 : Store) (vid : Nat)
        (evs0 evs uevs : List Event) (reason : String),
      openVersion s inp.providerId inp.newId inp.now = (s1, some vid, evs0) →
      env.insertThrow = none →
      embedStage env.embed inp.skus.length = .ok evs →
      upsertStage (stageItems s1 inp.providerId vid inp.skus)
        inp.providerId vid inp.skus env.upsert = .aborted s3 uevs reason →
      ∃ stc, Event.handlerInvoked vid stc reason ∈ (processCatalogModel env inp s).2) := by
  refine ⟨?_, ?_, ?_, ?_, ?_⟩
  · intro skus
    exact ⟨batches_flatten skus.length skus rfl, fun b => batchSlice_length_le skus b⟩
  · intro s p vid skus fails
    exact upsertCall_issued s p vid skus fails
  · intro s p vid skus oracle c x h
    exact (upsertRetryGo_batch_events p vid skus oracle MAX_RETRIES 0 s []
      (by intro c x h; cases h) (by intro c x h; cases h) (by omega)).1 c x h
  · intro s p vid skus oracle c x h
    exact (upsertRetryGo_batch_events p vid skus oracle MAX_RETRIES 0 s []
      (by intro c x h; cases h) (by intro c x h; cases h) (by omega)).2 c x h
  · intro env inp s s1 s3 vid evs0 evs uevs reason hopen hins hembed hups
    refine ⟨statusOf s3.versions vid, ?_⟩
    rw [run_upsert_abort env inp s s1 s3 vid evs0 evs uevs reason hopen hins hembed hups]
    simp [handleProcessFailure]

/-- C8 counterexample fixtures: 150 vectors (two batches); in the first
publish call batch 0 succeeds and batch 1 fails with a retryable 500. -/
def c8store : Store := ⟨[7], [], [], [], []⟩

def c8oracle : Nat → BatchOracle :=
  fun call b => if call = 0 ∧ b = 1 then some (some 500, "boom") else none

set_option maxRecDepth 10000 in
/-- C8 counterexample: although batch 0 succeeded in the first call
(`c8oracle 0 0 = none`), the retry after batch 1's retryable failure
re-upserts batch 0 again — the recorded upserts are batches 0 and 1 of call
0, the backoff wait, then batches 0 and 1 of call 1.  The claim that "a
retry re-attempts only the failed batch, not batches already upserted" is
false. -/
theorem c8_retry_reupserts_successful_batches_counterexample :
    c8oracle 0 0 = none ∧
    (upsertStage c8store 7 1 (List.replicate 150 "s") c8oracle).events =
      [Event.upsertBatch 0 0, Event.upsertBatch 0 1, Event.delayMs 500,
       Event.upsertBatch 1 0, Event.upsertBatch 1 1] := by
  constructor
  · rfl
  · rfl

/-- C8 witness: the batching identity on a concrete 150-vector list, one
publish call's issued prefix, and the handler invocation on a concrete
non-retryable upsert failure. -/
def c8wstore : Store := ⟨[7], [], [], [], []⟩

def c8winp : RunInput := ⟨7, 1, 0, ["A"]⟩

def c8wenv : RunEnv :=
  ⟨fun _ _ => .ok, fun _ _ => some (some 400, "bad"), none,
   ⟨none, none, none, false, false⟩⟩

theorem c8_upsert_batching_per_call_retry_witness :
    ((List.range (numBatches (List.replicate 150 "s").length)).map
        (batchSlice (List.replicate 150 "s"))).flatten = List.replicate 150 "s" ∧
    (∃ k, k ≤ numBatches (List.replicate 150 "s").length ∧
      (upsertCall c8wstore 7 1 (List.replicate 150 "s") (c8oracle 0)).2.1 =
        List.range k) ∧
    (∃ stc, Event.handlerInvoked 1 stc (nonRetryableUpsertReason "bad")
      ∈ (processCatalogModel c8wenv c8winp c8wstore).2) := by
  refine ⟨(c8_upsert_batching_per_call_retry.1 (List.replicate 150 "s")).1,
    c8_upsert_batching_per_call_retry.2.1 c8wstore 7 1 (List.replicate 150 "s") (c8oracle 0),
    ?_⟩
  exact c8_upsert_batching_per_call_retry.2.2.2.2 c8wenv c8winp c8wstore _ _ 1
    [] [Event.embedCall 0 0] [Event.upsertBatch 0 0]
    (nonRetryableUpsertReason "bad") rfl rfl rfl rfl

/-! ## Claims C2–C4: the cutover and its failure paths

`ItemsConsistent` is the spec's invariant: a document is active exactly
when its catalogVersionId refers to its provider's current ACTIVE
version. -/

/-- Some row of `vs` with the given id belongs to provider `q` and is
ACTIVE. -/
def HasActive (vs : List VersionRow) (q cv : Nat) : Prop :=
  ∃ v ∈ vs, v.id = cv ∧ v.providerId = q ∧ v.status = VStatus.ACTIVE

/-- The spec invariant: `CatalogItem.active = true` iff the item's
`catalogVersionId` is the id of its provider's ACTIVE version. -/
def ItemsConsistent (s : Store) : Prop :=
  ∀ d ∈ s.items,
    (d.active = true ↔ HasActive s.versions d.providerId d.catalogVersionId)

theorem itemsConsistent_of_eq {a b : Store}
    (hi : a.items = b.items) (hv : a.versions = b.versions)
    (h : ItemsConsistent b) : ItemsConsistent a := by
  unfold ItemsConsistent at *
  rw [hi, hv]
  exact h

theorem hasActive_updStatus_ne {u : Nat} {st : VStatus} {vs : List VersionRow}
    {q cv : Nat} (hne : cv ≠ u) :
    HasActive (updStatus u st vs) q cv ↔ HasActive vs q cv := by
  unfold HasActive updStatus
  constructor
  · rintro ⟨d, hd, hid, hq, hst⟩
    rcases List.mem_map.mp hd with ⟨v, hv, hfv⟩
    by_cases h : v.id = u
    · rw [if_pos h] at hfv
      rw [← hfv] at hid
      simp only at hid
      exact absurd (hid.symm.trans h) hne
    · rw [if_neg h] at hfv
      exact ⟨v, hv, hfv ▸ ⟨hid, hq, hst⟩⟩
  · rintro ⟨v, hv, hid, hq, hst⟩
    have h : ¬(v.id = u) := by rw [hid]; exact hne
    refine ⟨v, List.mem_map.mpr ⟨v, hv, by rw [if_neg h]⟩, hid, hq, hst⟩

theorem hasActive_updStatus_active_self {u : Nat} {vs : List VersionRow} {q : Nat} :
    HasActive (updStatus u VStatus.ACTIVE vs) q u ↔
      ∃ v ∈ vs, v.id = u ∧ v.providerId = q := by
  unfold HasActive updStatus
  constructor
  · rintro ⟨d, hd, hid, hq, hst⟩
    rcases List.mem_map.mp hd with ⟨v, hv, hfv⟩
    by_cases h : v.id = u
    · rw [if_pos h] at hfv
      exact ⟨v, hv, h, by rw [← hfv] at hq; exact hq⟩
    · rw [if_neg h] at hfv
      exact ⟨v, hv, hfv ▸ hid, hfv ▸ hq⟩
  · rintro ⟨v, hv, hid, hq⟩
    refine ⟨{ v with status := VStatus.ACTIVE },
      List.mem_map.mpr ⟨v, hv, by rw [if_pos hid]⟩, hid, hq, rfl⟩

theorem hasActive_updStatus_nonactive_self {u : Nat} {st : VStatus}
    {vs : List VersionRow} {q : Nat} (hst : st ≠ VStatus.ACTIVE) :
    ¬ HasActive (updStatus u st vs) q u := by
  unfold HasActive updStatus
  rintro ⟨d, hd, hid, hq, hact⟩
  rcases List.mem_map.mp hd with ⟨v, hv, hfv⟩
  by_cases h : v.id = u
  · rw [if_pos h] at hfv
    rw [← hfv] at hact
    exact hst hact
  · rw [if_neg h] at hfv
    rw [← hfv] at hid
    exact h (hid ▸ rfl)

theorem hasActive_append_nonactive {vs : List VersionRow} {row : VersionRow}
    {q cv : Nat} (h : row.status ≠ VStatus.ACTIVE) :
    HasActive (vs ++ [row]) q cv ↔ HasActive vs q cv := by
  unfold HasActive
  constructor
  · rintro ⟨v, hv, props⟩
    rcases List.mem_append.mp hv with hv | hv
    · exact ⟨v, hv, props⟩
    · have : v = row := by simpa using hv
      exact absurd (this ▸ props.2.2) h
  · rintro ⟨v, hv, props⟩
    exact ⟨v, List.mem_append.mpr (Or.inl hv), props⟩

theorem mem_updStatus_of_ne {u : Nat} {st : VStatus} {vs : List VersionRow}
    {v : VersionRow} (hv : v ∈ vs) (h : v.id ≠ u) :
    v ∈ updStatus u st vs := by
  unfold updStatus
  exact List.mem_map.mpr ⟨v, hv, by rw [if_neg h]⟩

/-! Store-field preservation of the vector-upsert stage: it writes only the
vector index. -/

theorem upsertCallGo_fields (p vid : Nat) (skus : List String) (fails : BatchOracle) :
    ∀ (remaining b : Nat) (s : Store),
      (upsertCallGo s p vid skus fails remaining b).1.versions = s.versions ∧
      (upsertCallGo s p vid skus fails remaining b).1.items = s.items ∧
      (upsertCallGo s p vid skus fails remaining b).1.audits = s.audits := by
  intro remaining
  induction remaining with
  | zero => intro b s; exact ⟨rfl, rfl, rfl⟩
  | succ remaining ih =>
    intro b s
    unfold upsertCallGo
    cases hf : fails b with
    | some e => exact ⟨rfl, rfl, rfl⟩
    | none =>
      dsimp only
      exact ih (b + 1) (applyBatchUpsert s p vid (batchSlice skus b))

theorem upsertRetryGo_fields (p vid : Nat) (skus : List String)
    (oracle : Nat → BatchOracle) :
    ∀ (fuel attempt : Nat) (s : Store) (evs : List Event),
      ((upsertRetryGo p vid skus oracle s attempt fuel evs).store).versions = s.versions ∧
      ((upsertRetryGo p vid skus oracle s attempt fuel evs).store).items = s.items ∧
      ((upsertRetryGo p vid skus oracle s attempt fuel evs).store).audits = s.audits := by
  intro fuel
  induction fuel with
  | zero => intro attempt s evs; exact ⟨rfl, rfl, rfl⟩
  | succ fuel ih =>
    intro attempt s evs
    unfold upsertRetryGo
    rcases hcall : upsertCall s p vid skus (oracle attempt) with ⟨s', issued, e⟩
    have hfields := upsertCallGo_fields p vid skus (oracle attempt)
      (numBatches skus.length) 0 s
    rw [show upsertCall s p vid skus (oracle attempt) =
      upsertCallGo s p vid skus (oracle attempt) (numBatches skus.length) 0 from rfl] at hcall
    rw [hcall] at hfields
    cases e with
    | none => exact hfields
    | some rm =>
      rcases rm with ⟨retryable, msg⟩
      dsimp only
      by_cases hre : retryable = false
      · rw [if_pos hre]; exact hfields
      · rw [if_neg hre]
        by_cases hlt : attempt + 1 < MAX_RETRIES
        · rw [if_pos hlt]
          exact ⟨(ih _ _ _).1.trans hfields.1, (ih _ _ _).2.1.trans hfields.2.1,
                 (ih _ _ _).2.2.trans hfields.2.2⟩
        · rw [if_neg hlt]; exact hfields

/-! The Failure Handler after staging: the staged (still inactive)
documents of the failed version are all deleted, the pre-existing
documents all survive, and the version table only changes at the new
row, which becomes FAILED. -/

theorem filter_staged (sitems : List ItemDoc) (p vid : Nat) (l : List String)
    (hfresh : ∀ d ∈ sitems, d.catalogVersionId ≠ vid) :
    (sitems ++ stagedDocs p vid l).filter
      (fun d => !decide (d.providerId = p ∧ d.catalogVersionId = vid ∧ d.active = false))
      = sitems := by
  rw [List.filter_append]
  have h1 : sitems.filter
      (fun d => !decide (d.providerId = p ∧ d.catalogVersionId = vid ∧ d.active = false))
      = sitems := by
    apply List.filter_eq_self.mpr
    intro d hd
    simp only [Bool.not_eq_true', decide_eq_false_iff_not]
    intro hcon
    exact hfresh d hd hcon.2.1
  have h2 : (stagedDocs p vid l).filter
      (fun d => !decide (d.providerId = p ∧ d.catalogVersionId = vid ∧ d.active = false))
      = [] := by
    apply List.filter_eq_nil_iff.mpr
    intro d hd
    rcases List.mem_map.mp hd with ⟨sku, _, hsku⟩
    rw [← hsku]
    simp
  rw [h1, h2, List.append_nil]

theorem updStatus_append_fresh {vs : List VersionRow} {row : VersionRow}
    {u : Nat} (st : VStatus) (hrow : row.id = u)
    (hfresh : ∀ v ∈ vs, v.id ≠ u) :
    updStatus u st (vs ++ [row]) = vs ++ [{ row with status := st }] := by
  unfold updStatus
  rw [List.map_append]
  congr 1
  · have hmap : List.map (fun v => if v.id = u then { v with status := st } else v) vs
        = List.map id vs := by
      apply List.map_congr_left
      intro v hv
      rw [if_neg (hfresh v hv)]
      rfl
    rw [hmap, List.map_id]
  · simp [hrow]

/-- Consistency survives the Failure Handler applied to a freshly staged
store: the staged documents vanish, everything else is as before, and the
new row is FAILED (not ACTIVE). -/
theorem handler_after_stage_consistent
    (s t : Store) (p vid : Nat) (l : List String) (r : String) (row : VersionRow)
    (hrowid : row.id = vid)
    (ht_items : t.items = s.items ++ stagedDocs p vid l)
    (ht_versions : t.versions = s.versions ++ [row])
    (hvfresh : ∀ v ∈ s.versions, v.id ≠ vid)
    (hifresh : ∀ d ∈ s.items, d.catalogVersionId ≠ vid)
    (hcons : ItemsConsistent s) :
    ItemsConsistent (handleProcessFailure t p vid r).1 := by
  intro d hd
  have hitems : (handleProcessFailure t p vid r).1.items = s.items := by
    show (t.items.filter _) = s.items
    rw [ht_items]
    exact filter_staged s.items p vid l hifresh
  have hversions : (handleProcessFailure t p vid r).1.versions =
      s.versions ++ [{ row with status := VStatus.FAILED }] := by
    show updStatus vid VStatus.FAILED t.versions = _
    rw [ht_versions]
    exact updStatus_append_fresh VStatus.FAILED hrowid hvfresh
  rw [hitems] at hd
  rw [hversions]
  rw [hasActive_append_nonactive (by simp)]
  exact hcons d hd

theorem openVersion_none {s : Store} {p newId now : Nat} {s1 : Store}
    {evs0 : List Event}
    (h : openVersion s p newId now = (s1, none, evs0)) :
    s1.items = s.items ∧ s1.versions = s.versions := by
  unfold openVersion at h
  dsimp only at h
  split_ifs at h
  · rw [Prod.ext_iff, Prod.ext_iff] at h
    simp only at h
    rw [← h.1]
    exact ⟨rfl, rfl⟩
  · rw [Prod.ext_iff, Prod.ext_iff] at h
    simp only at h
    rw [← h.1]
    exact ⟨rfl, rfl⟩
  · rw [Prod.ext_iff, Prod.ext_iff] at h
    simp only at h
    exact absurd h.2.1 (by simp)

/-- Core of the cutover consistency argument, archive case: after the
atomic archive-and-activate and both item flips, every document again
satisfies the active-iff-ACTIVE-version invariant. -/
theorem cutover_core_archive
    (s : Store) (p vid : Nat) (l : List String) (row o : VersionRow)
    (hrowid : row.id = vid) (hrowst : row.status = VStatus.PROCESSING)
    (hrowp : row.providerId = p)
    (hfa : findFirstActive (s.versions ++ [row]) p = some o)
    (honv : o.id ≠ vid)
    (hg : GoodIds s.versions)
    (hifresh : ∀ d ∈ s.items, d.catalogVersionId ≠ vid)
    (hcons : ItemsConsistent s) :
    ∀ d ∈ setItemsActive p o.id false
        (setItemsActive p vid true (s.items ++ stagedDocs p vid l)),
      (d.active = true ↔
        HasActive (updStatus vid VStatus.ACTIVE
          (updStatus o.id VStatus.ARCHIVED (s.versions ++ [row])))
          d.providerId d.catalogVersionId) := by
  have ho := findFirstActive_mem hfa
  have homem : o ∈ s.versions := by
    rcases List.mem_append.mp ho.1 with hin | hin
    · exact hin
    · have he : o = row := by simpa using hin
      rw [he, hrowst] at ho
      exact absurd ho.2.2 (by simp)
  have hop : o.providerId = p := ho.2.1
  intro d hd
  unfold setItemsActive at hd
  rcases List.mem_map.mp hd with ⟨d1, hd1, hde⟩
  rcases List.mem_map.mp hd1 with ⟨d0, hd0, hd1e⟩
  by_cases hm1 : d0.providerId = p ∧ d0.catalogVersionId = vid
  · -- the new version's items: flipped active, version now ACTIVE
    rw [if_pos hm1] at hd1e
    have hg1 : ¬(d1.providerId = p ∧ d1.catalogVersionId = o.id) := by
      rw [← hd1e]
      rintro ⟨_, hcv⟩
      dsimp only at hcv
      exact honv (hm1.2.symm.trans hcv).symm
    rw [if_neg hg1] at hde
    rw [← hde, ← hd1e]
    dsimp only
    rw [hm1.2]
    refine iff_of_true rfl ?_
    rw [hasActive_updStatus_active_self]
    refine ⟨row, ?_, hrowid, hrowp.trans hm1.1.symm⟩
    exact mem_updStatus_of_ne (List.mem_append.mpr (Or.inr (by simp)))
      (fun hh => honv ((hrowid ▸ hh : vid = o.id).symm))
  · rw [if_neg hm1] at hd1e
    rw [← hd1e] at hde
    by_cases hm2 : d0.providerId = p ∧ d0.catalogVersionId = o.id
    · -- the archived version's items: deactivated, version now ARCHIVED
      rw [if_pos hm2] at hde
      rw [← hde]
      dsimp only
      rw [hm2.2]
      refine iff_of_false (by simp) ?_
      rw [hasActive_updStatus_ne honv]
      exact hasActive_updStatus_nonactive_self (by simp)
    · -- untouched items
      rw [if_neg hm2] at hde
      rw [← hde]
      have hd0s : d0 ∈ s.items := by
        rcases List.mem_append.mp hd0 with hin | hin
        · exact hin
        · exfalso
          rcases List.mem_map.mp hin with ⟨sku, _, hsku⟩
          apply hm1
          rw [← hsku]
          exact ⟨rfl, rfl⟩
      have hcvvid : d0.catalogVersionId ≠ vid := hifresh d0 hd0s
      by_cases hcvo : d0.catalogVersionId = o.id
      · -- a cross-provider reference to the archived id cannot be active
        have hqp : ¬(d0.providerId = p) := fun hq => hm2 ⟨hq, hcvo⟩
        rw [hcvo]
        refine iff_of_false ?_ ?_
        · intro ha
          rcases (hcons d0 hd0s).mp ha with ⟨v, hv, hvid, hvq, hvact⟩
          have hvo : v = o := goodIds_inj hg hv homem (hvid.trans hcvo)
          exact hqp (by rw [← hvq, hvo, hop])
        · rw [hasActive_updStatus_ne honv]
          exact hasActive_updStatus_nonactive_self (by simp)
      · -- reference to an unrelated version: nothing changed
        rw [hasActive_updStatus_ne hcvvid, hasActive_updStatus_ne hcvo,
          hasActive_append_nonactive (by rw [hrowst]; simp)]
        exact hcons d0 hd0s

/-- Core of the cutover consistency argument, first-activation case (no
previous ACTIVE version). -/
theorem cutover_core_no_old
    (s : Store) (p vid : Nat) (l : List String) (row : VersionRow)
    (hrowid : row.id = vid) (hrowst : row.status = VStatus.PROCESSING)
    (hrowp : row.providerId = p)
    (hifresh : ∀ d ∈ s.items, d.catalogVersionId ≠ vid)
    (hcons : ItemsConsistent s) :
    ∀ d ∈ setItemsActive p vid true (s.items ++ stagedDocs p vid l),
      (d.active = true ↔
        HasActive (updStatus vid VStatus.ACTIVE (s.versions ++ [row]))
          d.providerId d.catalogVersionId) := by
  intro d hd
  unfold setItemsActive at hd
  rcases List.mem_map.mp hd with ⟨d0, hd0, hde⟩
  by_cases hm1 : d0.providerId = p ∧ d0.catalogVersionId = vid
  · rw [if_pos hm1] at hde
    rw [← hde]
    dsimp only
    rw [hm1.2]
    refine iff_of_true rfl ?_
    rw [hasActive_updStatus_active_self]
    exact ⟨row, List.mem_append.mpr (Or.inr (by simp)), hrowid,
      hrowp.trans hm1.1.symm⟩
  · rw [if_neg hm1] at hde
    rw [← hde]
    have hd0s : d0 ∈ s.items := by
      rcases List.mem_append.mp hd0 with hin | hin
      · exact hin
      · exfalso
        rcases List.mem_map.mp hin with ⟨sku, _, hsku⟩
        apply hm1
        rw [← hsku]
        exact ⟨rfl, rfl⟩
    have hcvvid : d0.catalogVersionId ≠ vid := hifresh d0 hd0s
    rw [hasActive_updStatus_ne hcvvid,
      hasActive_append_nonactive (by rw [hrowst]; simp)]
    exact hcons d0 hd0s

/-- The catch block of the cutover only further touches vectors and
audits beyond the Failure Handler, so consistency transfers. -/
theorem finalizeCatch_fields (env : FinalizeEnv) (t : Store) (p vid : Nat)
    (msg : String) :
    (finalizeCatch env t p vid msg).1.items =
      (handleProcessFailure t p vid (failedFinalizeReason msg)).1.items ∧
    (finalizeCatch env t p vid msg).1.versions =
      (handleProcessFailure t p vid (failedFinalizeReason msg)).1.versions := by
  unfold finalizeCatch
  rcases hh : handleProcessFailure t p vid (failedFinalizeReason msg) with ⟨s1, evs1⟩
  dsimp only
  by_cases hr : env.rollbackThrow = true
  · rw [if_pos hr]
    exact ⟨rfl, rfl⟩
  · rw [if_neg hr]
    exact ⟨rfl, rfl⟩

/-- A cutover that commits and whose post-commit flips do not throw
re-establishes the spec invariant. -/
theorem finalize_success_consistent
    (s t : Store) (p vid : Nat) (l : List String) (row : VersionRow)
    (env : FinalizeEnv)
    (htx : env.txThrow = none) (hfn : env.flipNewThrow = none)
    (hfo : env.flipOldThrow = none)
    (hrowid : row.id = vid) (hrowst : row.status = VStatus.PROCESSING)
    (hrowp : row.providerId = p)
    (ht_items : t.items = s.items ++ stagedDocs p vid l)
    (ht_versions : t.versions = s.versions ++ [row])
    (hg : GoodIds s.versions)
    (hvfresh : ∀ v ∈ s.versions, v.id ≠ vid)
    (hifresh : ∀ d ∈ s.items, d.catalogVersionId ≠ vid)
    (hcons : ItemsConsistent s) :
    ItemsConsistent (finalize env t p vid).1 := by
  unfold finalize
  rw [htx]
  cases hfa : findFirstActive t.versions p with
  | none =>
    rw [activateTx_no_old hfa]
    dsimp only
    rw [hfn]
    dsimp only
    intro d hd
    dsimp only at hd ⊢
    rw [ht_items] at hd
    rw [ht_versions]
    exact cutover_core_no_old s p vid l row hrowid hrowst hrowp hifresh hcons d hd
  | some o =>
    have ho := findFirstActive_mem hfa
    have ho1 : o ∈ s.versions ++ [row] := ht_versions ▸ ho.1
    have honv : o.id ≠ vid := by
      intro he
      rcases List.mem_append.mp ho1 with hin | hin
      · exact hvfresh o hin he
      · have heq : o = row := by simpa using hin
        have hpr : o.status = VStatus.PROCESSING := by rw [heq, hrowst]
        rw [ho.2.2] at hpr
        cases hpr
    rw [activateTx_archives hfa honv]
    dsimp only
    rw [hfn]
    dsimp only
    rw [hfo]
    dsimp only
    by_cases hcl : env.cleanupThrow = true
    · simp only [hcl, if_true]
      intro d hd
      dsimp only at hd ⊢
      rw [ht_items] at hd
      rw [ht_versions]
      exact cutover_core_archive s p vid l row o hrowid hrowst hrowp
        (ht_versions ▸ hfa) honv hg hifresh hcons d hd
    · simp only [hcl, if_false, Bool.false_eq_true]
      intro d hd
      dsimp only [deleteVectorsByVersionStore] at hd ⊢
      rw [ht_items] at hd
      rw [ht_versions]
      exact cutover_core_archive s p vid l row o hrowid hrowst hrowp
        (ht_versions ▸ hfa) honv hg hifresh hcons d hd

/-- Composition of the pipeline on the fully successful path up to the
finalize phase. -/
theorem run_success (env : RunEnv) (inp : RunInput) (s s1 s3 : Store)
    (vid : Nat) (evs0 evs uevs : List Event)
    (hopen : openVersion s inp.providerId inp.newId inp.now = (s1, some vid, evs0))
    (hins : env.insertThrow = none)
    (hembed : embedStage env.embed inp.skus.length = .ok evs)
    (hups : upsertStage (stageItems s1 inp.providerId vid inp.skus)
      inp.providerId vid inp.skus env.upsert = .ok s3 uevs) :
    processCatalogModel env inp s =
      ((finalize env.fin s3 inp.providerId vid).1,
       evs0 ++ (evs ++ uevs ++ (finalize env.fin s3 inp.providerId vid).2)) := by
  unfold processCatalogModel
  rw [hopen]
  dsimp only
  unfold runFromOpened
  rw [hins]
  dsimp only
  unfold runFromStaged
  rw [hembed]
  dsimp only
  rw [hups]

/-- Composition of the pipeline on the bulk-insert failure path. -/
theorem run_insert_abort (env : RunEnv) (inp : RunInput) (s s1 : Store)
    (vid k : Nat) (evs0 : List Event) (msg : String)
    (hopen : openVersion s inp.providerId inp.newId inp.now = (s1, some vid, evs0))
    (hins : env.insertThrow = some (k, msg)) :
    processCatalogModel env inp s =
      ((handleProcessFailure (stageItems s1 inp.providerId vid (inp.skus.take k))
          inp.providerId vid (insertFailReason msg)).1,
       evs0 ++ (handleProcessFailure (stageItems s1 inp.providerId vid (inp.skus.take k))
          inp.providerId vid (insertFailReason msg)).2) := by
  unfold processCatalogModel
  rw [hopen]
  dsimp only
  unfold runFromOpened
  rw [hins]

theorem upsertStage_fields (s : Store) (p vid : Nat) (skus : List String)
    (oracle : Nat → BatchOracle) :
    ((upsertStage s p vid skus oracle).store).versions = s.versions ∧
    ((upsertStage s p vid skus oracle).store).items = s.items ∧
    ((upsertStage s p vid skus oracle).store).audits = s.audits :=
  upsertRetryGo_fields p vid skus oracle MAX_RETRIES 0 s []

/-- C2 amended: the active-iff-current-ACTIVE-version invariant of the
document store is preserved by every pipeline run that does not throw in
the post-commit finalize steps (the step-2 new-item flip and step-3
old-item flip); all earlier failure paths (validation, conflict, staging,
embedding, upsert, the pre-commit transaction throw) and the successful
cutover re-establish it. -/
theorem c2_items_active_iff_version_active
    (env : RunEnv) (inp : RunInput) (s : Store)
    (hg : GoodIds s.versions)
    (hvfresh : ∀ v ∈ s.versions, v.id ≠ inp.newId)
    (hifresh : ∀ d ∈ s.items, d.catalogVersionId ≠ inp.newId)
    (hfn : env.fin.flipNewThrow = none) (hfo : env.fin.flipOldThrow = none)
    (hcons : ItemsConsistent s) :
    ItemsConsistent (processCatalogModel env inp s).1 := by
  rcases hopen : openVersion s inp.providerId inp.newId inp.now with ⟨s1, ovid, evs0⟩
  cases ovid with
  | none =>
    have heq : processCatalogModel env inp s = (s1, evs0) := by
      unfold processCatalogModel
      rw [hopen]
    rw [heq]
    exact itemsConsistent_of_eq (openVersion_none hopen).1 (openVersion_none hopen).2 hcons
  | some vid =>
    obtain ⟨hvid, hs1, hevs0⟩ := openVersion_some hopen
    subst hvid
    set row : VersionRow :=
      ⟨inp.newId, inp.providerId, nextVersionNumber s.versions inp.providerId,
       VStatus.PROCESSING, inp.now⟩ with hrowdef
    have ht_items : (stageItems s1 inp.providerId inp.newId inp.skus).items =
        s.items ++ stagedDocs inp.providerId inp.newId inp.skus := by
      rw [hs1]; rfl
    have ht_versions : (stageItems s1 inp.providerId inp.newId inp.skus).versions =
        s.versions ++ [row] := by
      rw [hs1]; rfl
    cases hins : env.insertThrow with
    | some km =>
      rcases km with ⟨k, msg⟩
      rw [run_insert_abort env inp s s1 inp.newId k evs0 msg hopen hins]
      refine handler_after_stage_consistent s _ inp.providerId inp.newId
        (inp.skus.take k) (insertFailReason msg) row rfl ?_ ?_ hvfresh hifresh hcons
      · rw [hs1]; rfl
      · rw [hs1]; rfl
    | none =>
      cases hembed : embedStage env.embed inp.skus.length with
      | aborted evs reason =>
        rw [run_embed_abort env inp s s1 inp.newId evs0 evs reason hopen hins hembed]
        exact handler_after_stage_consistent s _ inp.providerId inp.newId
          inp.skus reason row rfl ht_items ht_versions hvfresh hifresh hcons
      | ok evs =>
        have hfldbase := upsertStage_fields
          (stageItems s1 inp.providerId inp.newId inp.skus)
          inp.providerId inp.newId inp.skus env.upsert
        rcases hups : upsertStage (stageItems s1 inp.providerId inp.newId inp.skus)
            inp.providerId inp.newId inp.skus env.upsert with ⟨s3, uevs⟩ | ⟨s3, uevs, reason⟩
        · -- upsert succeeded: the run reaches the finalize phase
          rw [hups] at hfldbase
          dsimp only [UpsRes.store] at hfldbase
          rw [run_success env inp s s1 s3 inp.newId evs0 evs uevs hopen hins hembed hups]
          cases htx : env.fin.txThrow with
          | none =>
            exact finalize_success_consistent s s3 inp.providerId inp.newId
              inp.skus row env.fin htx hfn hfo rfl rfl rfl
              (hfldbase.2.1.trans ht_items) (hfldbase.1.trans ht_versions)
              hg hvfresh hifresh hcons
          | some msg =>
            have hfc : finalize env.fin s3 inp.providerId inp.newId =
                finalizeCatch env.fin s3 inp.providerId inp.newId msg := by
              unfold finalize; rw [htx]
            rw [hfc]
            have hh := handler_after_stage_consistent s s3 inp.providerId inp.newId
              inp.skus (failedFinalizeReason msg) row rfl
              (hfldbase.2.1.trans ht_items) (hfldbase.1.trans ht_versions)
              hvfresh hifresh hcons
            exact itemsConsistent_of_eq
              (finalizeCatch_fields env.fin s3 inp.providerId inp.newId msg).1
              (finalizeCatch_fields env.fin s3 inp.providerId inp.newId msg).2 hh
        · -- upsert aborted: Failure Handler path
          rw [hups] at hfldbase
          dsimp only [UpsRes.store] at hfldbase
          rw [run_upsert_abort env inp s s1 s3 inp.newId evs0 evs uevs reason
            hopen hins hembed hups]
          exact handler_after_stage_consistent s s3 inp.providerId inp.newId
            inp.skus reason row rfl
            (hfldbase.2.1.trans ht_items) (hfldbase.1.trans ht_versions)
            hvfresh hifresh hcons

/-- C2 counterexample fixtures: provider 7 has version 1 ACTIVE with one
active document; a new upload stages "B" as version 2, publishes its
vector, commits the cutover transaction (1 → ARCHIVED, 2 → ACTIVE), and
then the step-2 item flip throws. -/
def c2store : Store :=
  ⟨[7], [⟨1, 7, 1, VStatus.ACTIVE, 0⟩], [⟨7, 1, "A", true⟩], [⟨"7#A", 7, 1⟩], []⟩

def c2inp : RunInput := ⟨7, 2, 1, ["B"]⟩

def c2env : RunEnv :=
  ⟨fun _ _ => .ok, fun _ _ => none, none, ⟨none, some "mongo down", none, false, false⟩⟩

set_option maxRecDepth 10000 in
/-- C2 counterexample: the invariant holds before the run, but after the
post-commit flip failure the observable terminal state violates it — the
archived version's document "A" still carries `active = true` while no
version of provider 7 is ACTIVE (version 1 is ARCHIVED and version 2
FAILED). -/
theorem c2_orphan_active_item_counterexample :
    ItemsConsistent c2store ∧
    ¬ ItemsConsistent (processCatalogModel c2env c2inp c2store).1 := by
  constructor
  · unfold ItemsConsistent HasActive
    decide
  · unfold ItemsConsistent HasActive
    decide

/-- C2 witness fixtures: the same upload with a finalize phase that does
not throw. -/
def c2wstore : Store :=
  ⟨[7], [⟨1, 7, 1, VStatus.ACTIVE, 0⟩], [⟨7, 1, "A", true⟩], [⟨"7#A", 7, 1⟩], []⟩

def c2winp : RunInput := ⟨7, 2, 1, ["B"]⟩

def c2wenv : RunEnv :=
  ⟨fun _ _ => .ok, fun _ _ => none, none, ⟨none, none, none, false, false⟩⟩

/-- C2 witness: the amended invariant-preservation applied to a concrete
successful cutover run. -/
theorem c2_items_active_iff_version_active_witness :
    ItemsConsistent (processCatalogModel c2wenv c2winp c2wstore).1 :=
  c2_items_active_iff_version_active c2wenv c2winp c2wstore
    (by unfold GoodIds; decide) (by decide) (by decide) rfl rfl
    (by unfold ItemsConsistent HasActive; decide)

/-! ## Claims C3 and C4: who the Failure Handler runs on, and what the
activation-failure compensation deletes -/

theorem statusOf_append_fresh {vs : List VersionRow} {row : VersionRow}
    {u : Nat} (hrow : row.id = u) (hfresh : ∀ v ∈ vs, v.id ≠ u) :
    statusOf (vs ++ [row]) u = some row.status := by
  induction vs with
  | nil =>
    rw [List.nil_append, statusOf_cons, if_pos hrow]
  | cons a t ih =>
    rw [List.cons_append, statusOf_cons,
      if_neg (hfresh a (List.mem_cons_self a t))]
    exact ih (fun v hv => hfresh v (List.mem_cons_of_mem a hv))

/-- The version-opening events on a rejected open are a single audit
record with one of the two conflict reasons. -/
theorem openVersion_none_events {s : Store} {p newId now : Nat} {s1 : Store}
    {evs0 : List Event}
    (h : openVersion s p newId now = (s1, none, evs0)) :
    evs0 = [Event.audit dupVersionReason] ∨ evs0 = [Event.audit fkFailedReason] := by
  unfold openVersion at h
  dsimp only at h
  split_ifs at h
  · rw [Prod.ext_iff, Prod.ext_iff] at h
    simp only at h
    exact Or.inl h.2.2.symm
  · rw [Prod.ext_iff, Prod.ext_iff] at h
    simp only at h
    exact Or.inr h.2.2.symm
  · rw [Prod.ext_iff, Prod.ext_iff] at h
    simp only at h
    exact absurd h.2.1 (by simp)

/-- Embedding-stage events are only embedding calls and backoff waits. -/
theorem embedStageGo_events_shape (oracle : Nat → Nat → EmbedOutcome) :
    ∀ (l : List Nat) (evs : List Event),
      (∀ e ∈ evs, (∃ i a, e = Event.embedCall i a) ∨ (∃ ms, e = Event.delayMs ms)) →
      ∀ e ∈ (embedStageGo oracle l evs).events,
        (∃ i a, e = Event.embedCall i a) ∨ (∃ ms, e = Event.delayMs ms) := by
  intro l
  induction l with
  | nil => intro evs hevs e he; exact hevs e he
  | cons i rest ih =>
    intro evs hevs e he
    have hevs' : ∀ e ∈ evs ++ itemEvents i (embedItem (oracle i)),
        (∃ i a, e = Event.embedCall i a) ∨ (∃ ms, e = Event.delayMs ms) := by
      intro e he
      rcases List.mem_append.mp he with h | h
      · exact hevs e h
      · rcases itemEvents_shape h with ⟨a, ha⟩ | ⟨ms, hm⟩
        · exact Or.inl ⟨i, a, ha⟩
        · exact Or.inr ⟨ms, hm⟩
    unfold embedStageGo at he
    cases hres : embedItem (oracle i) with
    | success a d =>
      rw [hres] at he
      exact ih _ (by rw [← hres]; exact hevs') e he
    | nonRetryable m a d =>
      rw [hres] at he
      dsimp only [StageRes.events] at he
      rw [← hres] at he
      exact hevs' e he
    | exhausted m a d =>
      rw [hres] at he
      dsimp only [StageRes.events] at he
      rw [← hres] at he
      exact hevs' e he

/-- Upsert-stage events are only batch upserts and backoff waits. -/
theorem upsertRetryGo_events_shape (p vid : Nat) (skus : List String)
    (oracle : Nat → BatchOracle) :
    ∀ (fuel attempt : Nat) (s : Store) (evs : List Event),
      (∀ e ∈ evs, (∃ c b, e = Event.upsertBatch c b) ∨ (∃ ms, e = Event.delayMs ms)) →
      ∀ e ∈ (upsertRetryGo p vid skus oracle s attempt fuel evs).events,
        (∃ c b, e = Event.upsertBatch c b) ∨ (∃ ms, e = Event.delayMs ms) := by
  intro fuel
  induction fuel with
  | zero => intro attempt s evs hevs e he; exact hevs e he
  | succ fuel ih =>
    intro attempt s evs hevs e he
    unfold upsertRetryGo at he
    rcases hcall : upsertCall s p vid skus (oracle attempt) with ⟨s', issued, e'⟩
    rw [hcall] at he
    have hevs' : ∀ x ∈ evs ++ issued.map (fun b => Event.upsertBatch attempt b),
        (∃ c b, x = Event.upsertBatch c b) ∨ (∃ ms, x = Event.delayMs ms) := by
      intro x hx
      rcases List.mem_append.mp hx with h | h
      · exact hevs x h
      · rcases List.mem_map.mp h with ⟨b, _, hb⟩
        exact Or.inl ⟨attempt, b, hb.symm⟩
    cases e' with
    | none => exact hevs' e he
    | some rm =>
      rcases rm with ⟨retryable, msg⟩
      dsimp only at he
      by_cases hre : retryable = false
      · rw [if_pos hre] at he
        exact hevs' e he
      · rw [if_neg hre] at he
        by_cases hlt : attempt + 1 < MAX_RETRIES
        · rw [if_pos hlt] at he
          refine ih (attempt + 1) s' _ ?_ e he
          intro x hx
          rcases List.mem_append.mp hx with h | h
          · exact hevs' x h
          · have : x = Event.delayMs (BASE_DELAY_MS * 2 ^ (attempt + 1 - 1)) := by
              simpa using h
            exact Or.inr ⟨_, this⟩
        · rw [if_neg hlt] at he
          exact hevs' e he

/-- The catch block of the cutover always records the Failure Handler
invocation, with the status the version row had when the handler ran. -/
theorem finalizeCatch_handler_mem (env : FinalizeEnv) (t : Store) (p vid : Nat)
    (msg : String) :
    Event.handlerInvoked vid (statusOf t.versions vid) (failedFinalizeReason msg)
      ∈ (finalizeCatch env t p vid msg).2 := by
  unfold finalizeCatch
  rcases hh : handleProcessFailure t p vid (failedFinalizeReason msg) with ⟨s1, evs1⟩
  have hevs : evs1 = [Event.handlerInvoked vid (statusOf t.versions vid)
      (failedFinalizeReason msg), Event.audit (failedFinalizeReason msg)] := by
    have := congrArg (fun x => x.2) hh
    simp only at this
    exact this.symm
  dsimp only
  by_cases hr : env.rollbackThrow = true
  · rw [if_pos hr, hevs]
    simp
  · rw [if_neg hr, hevs]
    simp

/-- When the compensating deletion does not itself fail, the catch block
removes every vector of the failed version. -/
theorem finalizeCatch_rollback_store (env : FinalizeEnv) (t : Store) (p vid : Nat)
    (msg : String) (hr : env.rollbackThrow = false) :
    (finalizeCatch env t p vid msg).1 =
      deleteVectorsByVersionStore
        (handleProcessFailure t p vid (failedFinalizeReason msg)).1 p vid := by
  unfold finalizeCatch
  rcases hh : handleProcessFailure t p vid (failedFinalizeReason msg) with ⟨s1, evs1⟩
  dsimp only
  rw [if_neg (by rw [hr]; simp)]

/-- Every event of the catch block is the handler record, the audit record
or the compensating vector deletion. -/
theorem finalizeCatch_events_shape (env : FinalizeEnv) (t : Store) (p vid : Nat)
    (msg : String) :
    ∀ e ∈ (finalizeCatch env t p vid msg).2,
      e = Event.handlerInvoked vid (statusOf t.versions vid) (failedFinalizeReason msg) ∨
      e = Event.audit (failedFinalizeReason msg) ∨
      e = Event.deleteVectors vid := by
  unfold finalizeCatch
  rcases hh : handleProcessFailure t p vid (failedFinalizeReason msg) with ⟨s1, evs1⟩
  have hevs : evs1 = [Event.handlerInvoked vid (statusOf t.versions vid)
      (failedFinalizeReason msg), Event.audit (failedFinalizeReason msg)] := by
    have := congrArg (fun x => x.2) hh
    simp only at this
    exact this.symm
  dsimp only
  intro e he
  by_cases hr : env.rollbackThrow = true
  · rw [if_pos hr, hevs] at he
    rcases List.mem_cons.mp he with h | h
    · exact Or.inl h
    · exact Or.inr (Or.inl (by simpa using h))
  · rw [if_neg hr, hevs] at he
    rcases List.mem_append.mp he with h | h
    · rcases List.mem_cons.mp h with h | h
      · exact Or.inl h
      · exact Or.inr (Or.inl (by simpa using h))
    · exact Or.inr (Or.inr (by simpa using h))

/-- The step-1 transaction always leaves the new version ACTIVE (its row
exists by construction). -/
theorem statusOf_activateTx_self (vs : List VersionRow) (p vid : Nat)
    (h : ∃ st, statusOf vs vid = some st) :
    statusOf (activateTx vs p vid).1 vid = some VStatus.ACTIVE := by
  rcases h with ⟨st, hst⟩
  cases hfa : findFirstActive vs p with
  | none =>
    rw [activateTx_no_old hfa]
    rw [statusOf_updStatus_self, hst]
    rfl
  | some o =>
    by_cases ho : o.id ≠ vid
    · rw [activateTx_archives hfa ho]
      rw [statusOf_updStatus_self, statusOf_updStatus_ne o.id VStatus.ARCHIVED vs vid ho,
        hst]
      rfl
    · rw [activateTx_same_old hfa (not_not.mp ho)]
      rw [statusOf_updStatus_self, hst]
      rfl

/-- With no finalize-phase throw, the finalize events are only the
success audit and the best-effort old-vector cleanup. -/
theorem finalize_success_events (env : FinalizeEnv) (t : Store) (p vid : Nat)
    (htx : env.txThrow = none) (hfn : env.flipNewThrow = none)
    (hfo : env.flipOldThrow = none) :
    ∀ e ∈ (finalize env t p vid).2,
      e = Event.audit successAudit ∨ ∃ w, e = Event.deleteVectors w := by
  unfold finalize
  rw [htx]
  cases hfa : findFirstActive t.versions p with
  | none =>
    rw [activateTx_no_old hfa]
    dsimp only
    rw [hfn]
    dsimp only
    intro e he
    exact Or.inl (by simpa using he)
  | some o =>
    by_cases ho : o.id ≠ vid
    · rw [activateTx_archives hfa ho]
      dsimp only
      rw [hfn]
      dsimp only
      rw [hfo]
      dsimp only
      intro e he
      by_cases hcl : env.cleanupThrow = true
      · rw [if_pos hcl] at he
        simp only [List.nil_append] at he
        exact Or.inl (by simpa using he)
      · rw [if_neg hcl] at he
        rcases List.mem_append.mp he with h | h
        · exact Or.inr ⟨o.id, by simpa using h⟩
        · exact Or.inl (by simpa using h)
    · rw [activateTx_same_old hfa (by simpa using ho)]
      dsimp only
      rw [hfn]
      dsimp only
      intro e he
      exact Or.inl (by simpa using he)

theorem finalize_txThrow (env : FinalizeEnv) (t : Store) (p vid : Nat)
    (msg : String) (htx : env.txThrow = some msg) :
    finalize env t p vid = finalizeCatch env t p vid msg := by
  unfold finalize
  rw [htx]

theorem finalize_flipNew_throw (env : FinalizeEnv) (t : Store) (p vid : Nat)
    (msg : String) (htx : env.txThrow = none) (hfn : env.flipNewThrow = some msg) :
    finalize env t p vid =
      finalizeCatch env { t with versions := (activateTx t.versions p vid).1 }
        p vid msg := by
  unfold finalize
  rw [htx]
  rcases hact : activateTx t.versions p vid with ⟨vs', la⟩
  dsimp only
  rw [hfn]

/-- C3 amended: `handleProcessFailure` never runs on an ACTIVE version on
any path that fails before the cutover transaction commits — on all those
paths the version it touches is still PROCESSING; but when the commit
succeeds and a post-commit flip throws, the handler IS invoked on the
now-ACTIVE version, which transitions ACTIVE → FAILED.  Promotion and
failure are therefore not mutually exclusive in the code. -/
theorem c3_handler_processing_before_commit_active_after :
    (∀ (env : RunEnv) (inp : RunInput) (s : Store),
      (∀ v ∈ s.versions, v.id ≠ inp.newId) →
      env.fin.flipNewThrow = none → env.fin.flipOldThrow = none →
      ∀ vid' stc rsn,
        Event.handlerInvoked vid' stc rsn ∈ (processCatalogModel env inp s).2 →
        stc = some VStatus.PROCESSING) ∧
    (∀ (env : RunEnv) (inp : RunInput) (s s1 s3 : Store) (vid : Nat)
        (evs0 evs uevs : List Event) (msg : String),
      openVersion s inp.providerId inp.newId inp.now = (s1, some vid, evs0) →
      env.insertThrow = none →
      embedStage env.embed inp.skus.length = .ok evs →
      upsertStage (stageItems s1 inp.providerId vid inp.skus)
        inp.providerId vid inp.skus env.upsert = .ok s3 uevs →
      env.fin.txThrow = none → env.fin.flipNewThrow = some msg →
      (∀ v ∈ s.versions, v.id ≠ inp.newId) →
      Event.handlerInvoked vid (some VStatus.ACTIVE) (failedFinalizeReason msg)
        ∈ (processCatalogModel env inp s).2 ∧
      statusOf (processCatalogModel env inp s).1.versions vid = some VStatus.FAILED) := by
  constructor
  · intro env inp s hvfresh hfn hfo vid' stc rsn hmem
    rcases hopen : openVersion s inp.providerId inp.newId inp.now with ⟨s1, ovid, evs0⟩
    cases ovid with
    | none =>
      have heq : processCatalogModel env inp s = (s1, evs0) := by
        unfold processCatalogModel
        rw [hopen]
      rw [heq] at hmem
      rcases openVersion_none_events hopen with h | h <;> rw [h] at hmem <;> simp at hmem
    | some vid =>
      obtain ⟨hvid, hs1, hevs0⟩ := openVersion_some hopen
      subst hvid
      have hstat : ∀ l, statusOf (stageItems s1 inp.providerId inp.newId l).versions
          inp.newId = some VStatus.PROCESSING := by
        intro l
        have : (stageItems s1 inp.providerId inp.newId l).versions =
            s.versions ++ [⟨inp.newId, inp.providerId,
              nextVersionNumber s.versions inp.providerId, VStatus.PROCESSING, inp.now⟩] := by
          rw [hs1]; rfl
        rw [this]
        exact statusOf_append_fresh rfl hvfresh
      have hembedshape := embedStageGo_events_shape env.embed
        (List.range inp.skus.length) [] (by intro e he; cases he)
      cases hins : env.insertThrow with
      | some km =>
        rcases km with ⟨k, msg⟩
        rw [run_insert_abort env inp s s1 inp.newId k evs0 msg hopen hins] at hmem
        rw [hevs0] at hmem
        simp only [List.nil_append] at hmem
        rcases List.mem_cons.mp hmem with h | h
        · injection h with h1 h2 h3
          rw [h2, hstat]
        · have : Event.handlerInvoked vid' stc rsn = Event.audit (insertFailReason msg) := by
            simpa using h
          cases this
      | none =>
        cases hembed : embedStage env.embed inp.skus.length with
        | aborted evs reason =>
          rw [run_embed_abort env inp s s1 inp.newId evs0 evs reason hopen hins hembed] at hmem
          rw [hevs0] at hmem
          simp only [List.nil_append] at hmem
          rcases List.mem_append.mp hmem with h | h
          · have hsh : ∀ e ∈ evs,
                (∃ i a, e = Event.embedCall i a) ∨ (∃ ms, e = Event.delayMs ms) := by
              intro e he
              apply hembedshape
              show e ∈ (embedStage env.embed inp.skus.length).events
              rw [hembed]
              exact he
            rcases hsh _ h with ⟨i, a, hh⟩ | ⟨ms, hh⟩ <;> cases hh
          · rcases List.mem_cons.mp h with h | h
            · injection h with h1 h2 h3
              rw [h2, hstat]
            · have : Event.handlerInvoked vid' stc rsn = Event.audit reason := by
                simpa using h
              cases this
        | ok evs =>
          have hsh : ∀ e ∈ evs,
              (∃ i a, e = Event.embedCall i a) ∨ (∃ ms, e = Event.delayMs ms) := by
            intro e he
            apply hembedshape
            show e ∈ (embedStage env.embed inp.skus.length).events
            rw [hembed]
            exact he
          have hupshape := upsertRetryGo_events_shape inp.providerId inp.newId
            inp.skus env.upsert MAX_RETRIES 0
            (stageItems s1 inp.providerId inp.newId inp.skus) [] (by intro e he; cases he)
          have hfldbase := upsertStage_fields
            (stageItems s1 inp.providerId inp.newId inp.skus)
            inp.providerId inp.newId inp.skus env.upsert
          rcases hups : upsertStage (stageItems s1 inp.providerId inp.newId inp.skus)
              inp.providerId inp.newId inp.skus env.upsert with ⟨s3, uevs⟩ | ⟨s3, uevs, reason⟩
          · -- upsert ok: finalize phase
            rw [hups] at hfldbase
            dsimp only [UpsRes.store] at hfldbase
            have hstat3 : statusOf s3.versions inp.newId = some VStatus.PROCESSING := by
              rw [hfldbase.1]
              exact hstat inp.skus
            rw [run_success env inp s s1 s3 inp.newId evs0 evs uevs hopen hins hembed hups]
              at hmem
            rw [hevs0] at hmem
            simp only [List.nil_append] at hmem
            rcases List.mem_append.mp hmem with h | h
            · rcases List.mem_append.mp h with h | h
              · rcases hsh _ h with ⟨i, a, hh⟩ | ⟨ms, hh⟩ <;> cases hh
              · have husevs : ∀ e ∈ uevs,
                    (∃ c b, e = Event.upsertBatch c b) ∨ (∃ ms, e = Event.delayMs ms) := by
                  intro e he
                  apply hupshape
                  show e ∈ (upsertStage (stageItems s1 inp.providerId inp.newId inp.skus)
                    inp.providerId inp.newId inp.skus env.upsert).events
                  rw [hups]
                  exact he
                rcases husevs _ h with ⟨c, b, hh⟩ | ⟨ms, hh⟩ <;> cases hh
            · cases htx : env.fin.txThrow with
              | none =>
                have := finalize_success_events env.fin s3 inp.providerId inp.newId
                  htx hfn hfo _ h
                rcases this with hh | ⟨w, hh⟩ <;> cases hh
              | some msg =>
                rw [finalize_txThrow env.fin s3 inp.providerId inp.newId msg htx] at h
                rcases finalizeCatch_events_shape env.fin s3 inp.providerId inp.newId msg
                  _ h with hh | hh | hh
                · injection hh with h1 h2 h3
                  rw [h2, hstat3]
                · cases hh
                · cases hh
          · -- upsert aborted
            rw [hups] at hfldbase
            dsimp only [UpsRes.store] at hfldbase
            have hstat3 : statusOf s3.versions inp.newId = some VStatus.PROCESSING := by
              rw [hfldbase.1]
              exact hstat inp.skus
            rw [run_upsert_abort env inp s s1 s3 inp.newId evs0 evs uevs reason
              hopen hins hembed hups] at hmem
            rw [hevs0] at hmem
            simp only [List.nil_append] at hmem
            rcases List.mem_append.mp hmem with h | h
            · rcases List.mem_append.mp h with h | h
              · rcases hsh _ h with ⟨i, a, hh⟩ | ⟨ms, hh⟩ <;> cases hh
              · have husevs : ∀ e ∈ uevs,
                    (∃ c b, e = Event.upsertBatch c b) ∨ (∃ ms, e = Event.delayMs ms) := by
                  intro e he
                  apply hupshape
                  show e ∈ (upsertStage (stageItems s1 inp.providerId inp.newId inp.skus)
                    inp.providerId inp.newId inp.skus env.upsert).events
                  rw [hups]
                  exact he
                rcases husevs _ h with ⟨c, b, hh⟩ | ⟨ms, hh⟩ <;> cases hh
            · rcases List.mem_cons.mp h with h | h
              · injection h with h1 h2 h3
                rw [h2, hstat3]
              · have : Event.handlerInvoked vid' stc rsn = Event.audit reason := by
                  simpa using h
                cases this
  · intro env inp s s1 s3 vid evs0 evs uevs msg hopen hins hembed hups htx hfn hvfresh
    obtain ⟨hvid, hs1, hevs0⟩ := openVersion_some hopen
    subst hvid
    have hfld := upsertStage_fields (stageItems s1 inp.providerId inp.newId inp.skus)
      inp.providerId inp.newId inp.skus env.upsert
    rw [hups] at hfld
    dsimp only [UpsRes.store] at hfld
    have hver3 : s3.versions = s.versions ++
        [⟨inp.newId, inp.providerId, nextVersionNumber s.versions inp.providerId,
          VStatus.PROCESSING, inp.now⟩] := by
      rw [hfld.1, hs1]; rfl
    have hsome : ∃ st, statusOf s3.versions inp.newId = some st := by
      rw [hver3]
      exact ⟨VStatus.PROCESSING, statusOf_append_fresh rfl hvfresh⟩
    have hact : statusOf (activateTx s3.versions inp.providerId inp.newId).1 inp.newId
        = some VStatus.ACTIVE := statusOf_activateTx_self _ _ _ hsome
    rw [run_success env inp s s1 s3 inp.newId evs0 evs uevs hopen hins hembed hups]
    rw [finalize_flipNew_throw env.fin s3 inp.providerId inp.newId msg htx hfn]
    constructor
    · have hmem := finalizeCatch_handler_mem env.fin
        { s3 with versions := (activateTx s3.versions inp.providerId inp.newId).1 }
        inp.providerId inp.newId msg
      rw [show ({ s3 with versions :=
          (activateTx s3.versions inp.providerId inp.newId).1 } : Store).versions =
          (activateTx s3.versions inp.providerId inp.newId).1 from rfl, hact] at hmem
      exact List.mem_append.mpr (Or.inr (List.mem_append.mpr (Or.inr hmem)))
    · have hfields := finalizeCatch_fields env.fin
        { s3 with versions := (activateTx s3.versions inp.providerId inp.newId).1 }
        inp.providerId inp.newId msg
      dsimp only
      rw [hfields.2]
      show statusOf (updStatus inp.newId VStatus.FAILED
        ({ s3 with versions := (activateTx s3.versions inp.providerId inp.newId).1 }
          : Store).versions) inp.newId = some VStatus.FAILED
      rw [statusOf_updStatus_self]
      rw [show ({ s3 with versions :=
          (activateTx s3.versions inp.providerId inp.newId).1 } : Store).versions =
          (activateTx s3.versions inp.providerId inp.newId).1 from rfl, hact]
      rfl

/-- C3 counterexample fixtures: provider 7 has version 1 ACTIVE; the upload
of "B" as version 2 commits its cutover transaction, then the step-2 item
flip throws. -/
def c3store : Store :=
  ⟨[7], [⟨1, 7, 1, VStatus.ACTIVE, 0⟩], [⟨7, 1, "A", true⟩], [⟨"7#A", 7, 1⟩], []⟩

def c3inp : RunInput := ⟨7, 2, 1, ["B"]⟩

def c3env : RunEnv :=
  ⟨fun _ _ => .ok, fun _ _ => none, none, ⟨none, some "mongo down", none, false, false⟩⟩

set_option maxRecDepth 4000 in
/-- C3 counterexample: when the post-commit item flip throws, the pipeline
invokes the Failure Handler on version 2 while that version's status is
ACTIVE, and the version ends FAILED — an ACTIVE → FAILED transition. -/
theorem c3_handler_on_active_version_counterexample :
    Event.handlerInvoked 2 (some VStatus.ACTIVE) (failedFinalizeReason "mongo down")
      ∈ (processCatalogModel c3env c3inp c3store).2 ∧
    statusOf (processCatalogModel c3env c3inp c3store).1.versions 2
      = some VStatus.FAILED := by
  decide

/-- C3 witness fixtures: the same cutover/flip-failure run, with the
intermediate stores of its stages spelled out. -/
def c3wstore : Store :=
  ⟨[7], [⟨1, 7, 1, VStatus.ACTIVE, 0⟩], [⟨7, 1, "A", true⟩], [⟨"7#A", 7, 1⟩], []⟩

def c3winp : RunInput := ⟨7, 2, 1, ["B"]⟩

def c3wenv : RunEnv :=
  ⟨fun _ _ => .ok, fun _ _ => none, none, ⟨none, some "mongo down", none, false, false⟩⟩

/-- The store after the version-opening transaction of the C3 witness run. -/
def c3ws1 : Store :=
  ⟨[7], [⟨1, 7, 1, VStatus.ACTIVE, 0⟩, ⟨2, 7, 2, VStatus.PROCESSING, 1⟩],
   [⟨7, 1, "A", true⟩], [⟨"7#A", 7, 1⟩], []⟩

/-- The store after staging and vector publication of the C3 witness run. -/
def c3ws3 : Store :=
  ⟨[7], [⟨1, 7, 1, VStatus.ACTIVE, 0⟩, ⟨2, 7, 2, VStatus.PROCESSING, 1⟩],
   [⟨7, 1, "A", true⟩, ⟨7, 2, "B", false⟩],
   [⟨"7#A", 7, 1⟩, ⟨"7#B", 7, 2⟩], []⟩

set_option maxRecDepth 4000 in
/-- C3 witness: part (ii) of the amended statement applied to the concrete
commit-then-flip-failure run. -/
theorem c3_handler_processing_before_commit_active_after_witness :
    Event.handlerInvoked 2 (some VStatus.ACTIVE) (failedFinalizeReason "mongo down")
      ∈ (processCatalogModel c3wenv c3winp c3wstore).2 ∧
    statusOf (processCatalogModel c3wenv c3winp c3wstore).1.versions 2
      = some VStatus.FAILED :=
  c3_handler_processing_before_commit_active_after.2 c3wenv c3winp c3wstore
    c3ws1 c3ws3 2 [] [Event.embedCall 0 0] [Event.upsertBatch 0 0] "mongo down"
    rfl rfl rfl rfl rfl rfl (by decide)

/-! ## Claim C4: the compensation of an activation failure -/

/-- The catch block of the cutover records the Failure Handler invocation
with the finalize reason, removes (when the compensating deletion does not
itself throw) every vector of the failed version, and — through the
Failure Handler's own `deleteMany` — also removes every still-inactive
staged document of the failed version. -/
theorem finalizeCatch_compensation (env : FinalizeEnv) (t : Store) (p vid : Nat)
    (msg : String) (sitems : List ItemDoc) (l : List String)
    (hti : t.items = sitems ++ stagedDocs p vid l)
    (hifresh : ∀ d ∈ sitems, d.catalogVersionId ≠ vid) :
    (∃ stc, Event.handlerInvoked vid stc (failedFinalizeReason msg)
        ∈ (finalizeCatch env t p vid msg).2) ∧
    (env.rollbackThrow = false →
      ∀ r ∈ (finalizeCatch env t p vid msg).1.vectors,
        ¬ (r.providerId = p ∧ r.catalogVersionId = vid)) ∧
    (∀ d ∈ (finalizeCatch env t p vid msg).1.items, d.catalogVersionId ≠ vid) := by
  refine ⟨⟨statusOf t.versions vid, finalizeCatch_handler_mem env t p vid msg⟩, ?_, ?_⟩
  · intro hr r hrmem hcon
    rw [finalizeCatch_rollback_store env t p vid msg hr] at hrmem
    dsimp only [deleteVectorsByVersionStore] at hrmem
    have hfilt := (List.mem_filter.mp hrmem).2
    simp only [Bool.not_eq_true', decide_eq_false_iff_not] at hfilt
    exact hfilt hcon
  · intro d hd
    have hitems := (finalizeCatch_fields env t p vid msg).1
    rw [hitems] at hd
    dsimp only [handleProcessFailure] at hd
    rw [hti, filter_staged sitems p vid l hifresh] at hd
    exact hifresh d hd

/-- C4 amended: when the step-1 transaction or the step-2 item flip throws,
the Failure Handler runs with the "Failed to finalize" reason and the new
version's published vectors are deleted as a compensating action (when that
deletion does not itself fail); but contrary to the claim the new version's
staged document-store items ARE deleted as well, by the Failure Handler's
own `deleteMany` over the still-inactive documents — no orphan documents
remain. -/
theorem c4_finalize_failure_compensation :
    ∀ (env : RunEnv) (inp : RunInput) (s s1 s3 : Store) (vid : Nat)
      (evs0 evs uevs : List Event) (msg : String),
    openVersion s inp.providerId inp.newId inp.now = (s1, some vid, evs0) →
    env.insertThrow = none →
    embedStage env.embed inp.skus.length = .ok evs →
    upsertStage (stageItems s1 inp.providerId vid inp.skus)
      inp.providerId vid inp.skus env.upsert = .ok s3 uevs →
    (env.fin.txThrow = some msg ∨
      (env.fin.txThrow = none ∧ env.fin.flipNewThrow = some msg)) →
    (∀ d ∈ s.items, d.catalogVersionId ≠ vid) →
    (∃ stc, Event.handlerInvoked vid stc (failedFinalizeReason msg)
        ∈ (processCatalogModel env inp s).2) ∧
    (env.fin.rollbackThrow = false →
      ∀ r ∈ (processCatalogModel env inp s).1.vectors,
        ¬ (r.providerId = inp.providerId ∧ r.catalogVersionId = vid)) ∧
    (∀ d ∈ (processCatalogModel env inp s).1.items, d.catalogVersionId ≠ vid) := by
  intro env inp s s1 s3 vid evs0 evs uevs msg hopen hins hembed hups hthrow hifresh
  obtain ⟨hvid, hs1, hevs0⟩ := openVersion_some hopen
  subst hvid
  have hfld := upsertStage_fields (stageItems s1 inp.providerId inp.newId inp.skus)
    inp.providerId inp.newId inp.skus env.upsert
  rw [hups] at hfld
  dsimp only [UpsRes.store] at hfld
  have hitems3 : s3.items = s.items ++ stagedDocs inp.providerId inp.newId inp.skus := by
    rw [hfld.2.1, hs1]; rfl
  rw [run_success env inp s s1 s3 inp.newId evs0 evs uevs hopen hins hembed hups]
  dsimp only
  rcases hthrow with htx | ⟨htx, hfn⟩
  · rw [finalize_txThrow env.fin s3 inp.providerId inp.newId msg htx]
    have h := finalizeCatch_compensation env.fin s3 inp.providerId inp.newId msg
      s.items inp.skus hitems3 hifresh
    obtain ⟨stc, hst⟩ := h.1
    exact ⟨⟨stc, List.mem_append.mpr (Or.inr (List.mem_append.mpr (Or.inr hst)))⟩,
           h.2.1, h.2.2⟩
  · rw [finalize_flipNew_throw env.fin s3 inp.providerId inp.newId msg htx hfn]
    have h := finalizeCatch_compensation env.fin
      { s3 with versions := (activateTx s3.versions inp.providerId inp.newId).1 }
      inp.providerId inp.newId msg s.items inp.skus hitems3 hifresh
    obtain ⟨stc, hst⟩ := h.1
    exact ⟨⟨stc, List.mem_append.mpr (Or.inr (List.mem_append.mpr (Or.inr hst)))⟩,
           h.2.1, h.2.2⟩

/-- C4 counterexample fixtures: a first upload for provider 7 whose step-1
cutover transaction throws. -/
def c4store : Store := ⟨[7], [], [], [], []⟩

def c4inp : RunInput := ⟨7, 1, 0, ["B"]⟩

def c4env : RunEnv :=
  ⟨fun _ _ => .ok, fun _ _ => none, none, ⟨some "db down", none, none, false, false⟩⟩

set_option maxRecDepth 4000 in
/-- C4 counterexample: the Failure Handler runs with the finalize reason
and the vectors are compensated, but the staged document of the failed
version is deleted too — the final document store is empty even though a
SKU was uploaded, contradicting "the staged items are NOT deleted". -/
theorem c4_staged_items_deleted_counterexample :
    Event.handlerInvoked 1 (some VStatus.PROCESSING) (failedFinalizeReason "db down")
      ∈ (processCatalogModel c4env c4inp c4store).2 ∧
    (processCatalogModel c4env c4inp c4store).1.vectors = [] ∧
    c4inp.skus ≠ [] ∧
    (processCatalogModel c4env c4inp c4store).1.items = [] := by
  decide

/-- C4 witness fixtures: the same transaction-failure run, with the
intermediate stores of its stages spelled out. -/
def c4wstore : Store := ⟨[7], [], [], [], []⟩

def c4winp : RunInput := ⟨7, 1, 0, ["B"]⟩

def c4wenv : RunEnv :=
  ⟨fun _ _ => .ok, fun _ _ => none, none, ⟨some "db down", none, none, false, false⟩⟩

/-- The store after the version-opening transaction of the C4 witness run. -/
def c4ws1 : Store :=
  ⟨[7], [⟨1, 7, 1, VStatus.PROCESSING, 0⟩], [], [], []⟩

/-- The store after staging and vector publication of the C4 witness run. -/
def c4ws3 : Store :=
  ⟨[7], [⟨1, 7, 1, VStatus.PROCESSING, 0⟩], [⟨7, 1, "B", false⟩],
   [⟨"7#B", 7, 1⟩], []⟩

set_option maxRecDepth 4000 in
/-- C4 witness: the amended compensation statement applied to the concrete
transaction-failure run. -/
theorem c4_finalize_failure_compensation_witness :
    (∃ stc, Event.handlerInvoked 1 stc (failedFinalizeReason "db down")
        ∈ (processCatalogModel c4wenv c4winp c4wstore).2) ∧
    (c4wenv.fin.rollbackThrow = false →
      ∀ r ∈ (processCatalogModel c4wenv c4winp c4wstore).1.vectors,
        ¬ (r.providerId = c4winp.providerId ∧ r.catalogVersionId = 1)) ∧
    (∀ d ∈ (processCatalogModel c4wenv c4winp c4wstore).1.items,
        d.catalogVersionId ≠ 1) :=
  c4_finalize_failure_compensation c4wenv c4winp c4wstore c4ws1 c4ws3 1
    [] [Event.embedCall 0 0] [Event.upsertBatch 0 0] "db down"
    rfl rfl rfl rfl (Or.inl rfl) (by decide)

end SemanticCatalog
